import Mathlib

/-!
Verification of the run-contract state machine and verification engine
(`src/utils/run_contract.py`).

The development is a shallow embedding of the contract document model, the
existence checker, the corruption auditor, the folder partitioner and the
lifecycle commands (`record-produced`, `mark-task-*`, `preflight`,
`finalize`).  External collaborators (the filesystem, the `gsutil`
object-storage capability, the SHA-1 digest used for default asset ids and
the wall clock) are modelled as an explicit `Env` record of oracle
functions plus a `now` timestamp string, mirroring the boundary the code
itself draws around `subprocess`/`Path`/`datetime`.  Document persistence
(`_write_contract`, atomic renames) and the GCS upload/publication steps
are outside the embedded state: they do not feed back into statuses,
rollups or completion signals.  Strings are processed with char-list
functions that mirror the Python `str` operations used by the source.
-/

namespace RunContract

/-! ## String helpers mirroring the Python `str` operations -/

/-- Python truthiness for an optional string field: `None` and `""` are falsy. -/
def strOf : Option String → String
  | none => ""
  | some s => s

/-- Python whitespace class used by `str.strip()` (ASCII subset). -/
def wspace (c : Char) : Bool :=
  c == ' ' || c == '\t' || c == '\n' || c == '\r' || c == '\x0b' || c == '\x0c'

/-- `str.strip()`. -/
def trimStr (s : String) : String :=
  ⟨((s.data.dropWhile wspace).reverse.dropWhile wspace).reverse⟩

/-- `s.startswith(pre)`. -/
def startsWithStr (pre s : String) : Bool := pre.data.isPrefixOf s.data

/-- `s.endswith(suf)`. -/
def endsWithStr (suf s : String) : Bool := suf.data.reverse.isPrefixOf s.data.reverse

/-- `s.lower()` (ASCII subset). -/
def lowerStr (s : String) : String := ⟨s.data.map Char.toLower⟩

/-- `s.replace("\n", " ")`. -/
def replaceNewlines (s : String) : String :=
  ⟨s.data.map (fun c => if c == '\n' then ' ' else c)⟩

/-- `needle in s` (substring test), here on char lists. -/
def hasSub (needle : List Char) : List Char → Bool
  | [] => needle.isEmpty
  | c :: rest => needle.isPrefixOf (c :: rest) || hasSub needle rest

/-- `needle in s` for strings. -/
def containsSub (needle s : String) : Bool := hasSub needle.data s.data

/-- One pass of `rest.replace("//", "/")`: every non-overlapping `//` becomes `/`. -/
def replaceDoubleSlash : List Char → List Char
  | '/' :: '/' :: rest => '/' :: replaceDoubleSlash rest
  | c :: rest => c :: replaceDoubleSlash rest
  | [] => []

/-- `"//" in rest`. -/
def hasDoubleSlash : List Char → Bool
  | '/' :: '/' :: _ => true
  | _ :: rest => hasDoubleSlash rest
  | [] => false

/-- The `while "//" in rest: rest = rest.replace("//", "/")` loop of
`_normalize_gs_uri`; each productive pass strictly shrinks the string, so
`fuel = length` iterations always reach the fixpoint. -/
def collapseLoop : Nat → List Char → List Char
  | 0, l => l
  | n + 1, l => if hasDoubleSlash l then collapseLoop n (replaceDoubleSlash l) else l

/-- `s.rstrip("/")`. -/
def dropRightSlashes (s : String) : String :=
  ⟨(s.data.reverse.dropWhile (· == '/')).reverse⟩

/-- `s[n:]` on code points. -/
def strDrop (s : String) (n : Nat) : String := ⟨s.data.drop n⟩

/-- `s[:n]` on code points. -/
def strTake (s : String) (n : Nat) : String := ⟨s.data.take n⟩

/-- Index of the last occurrence of `c`, i.e. Python `s.rfind(c)` before the
`-1` encoding (returns `none` when absent). -/
def lastIdxOf (c : Char) : List Char → Option Nat
  | [] => none
  | x :: rest =>
    match lastIdxOf c rest with
    | some i => some (i + 1)
    | none => if x == c then some 0 else none

/-- `s.split("/")` on char lists. -/
def splitSlashChars : List Char → List (List Char)
  | [] => [[]]
  | x :: rest =>
    match splitSlashChars rest with
    | [] => [[x]]
    | h :: t => if x == '/' then [] :: h :: t else (x :: h) :: t

/-- `s.split("/")`. -/
def splitSlash (s : String) : List String := (splitSlashChars s.data).map String.mk

/-- `"/".join(parts)`. -/
def joinSlash : List String → String
  | [] => ""
  | [x] => x
  | x :: xs => x ++ "/" ++ joinSlash xs

/-! ## A lexicographic string order whose decision procedure evaluates,
used to model Python `sorted(...)` on strings. -/

/-- Lexicographic comparison on char lists (code-point order, as in Python). -/
def lexLe : List Char → List Char → Bool
  | [], _ => true
  | _ :: _, [] => false
  | a :: as, b :: bs =>
    if a.toNat < b.toNat then true
    else if b.toNat < a.toNat then false
    else lexLe as bs

/-- The order `sorted` sorts by, as a proposition. -/
def StrLe (a b : String) : Prop := lexLe a.data b.data = true

instance : DecidableRel StrLe := fun a b => by unfold StrLe; infer_instance

instance : IsTotal String StrLe :=
  ⟨fun p q => by
    show lexLe p.data q.data = true ∨ lexLe q.data p.data = true
    generalize p.data = a; generalize q.data = b
    induction a generalizing b with
    | nil => left; rfl
    | cons x xs ih =>
      cases b with
      | nil => right; rfl
      | cons y ys =>
        by_cases h1 : x.toNat < y.toNat
        · left; simp [lexLe, h1]
        · by_cases h2 : y.toNat < x.toNat
          · right; simp [lexLe, h2, h1]
          · rcases ih ys with h | h
            · left; simp [lexLe, h1, h2, h]
            · right; simp [lexLe, h1, h2, h]⟩

instance : IsTrans String StrLe :=
  ⟨fun p q r h1 h2 => by
    unfold StrLe at h1 h2 ⊢
    revert h1 h2
    generalize p.data = a; generalize q.data = b; generalize r.data = c
    intro h1 h2
    induction a generalizing b c with
    | nil => rfl
    | cons x xs ih =>
      cases b with
      | nil => simp [lexLe] at h1
      | cons y ys =>
        cases c with
        | nil => simp [lexLe] at h2
        | cons z zs =>
          simp only [lexLe] at h1 h2 ⊢
          split_ifs at h1 h2 ⊢ <;> try omega
          all_goals try rfl
          exact ih ys zs h1 h2⟩

/-- Python `sorted(set(l))` for lists of strings: duplicate-free and sorted;
as a set of strings it is exactly `l`. -/
def sortedDedup (l : List String) : List String := List.insertionSort StrLe l.dedup

/-! ## JSON values (for the metadata corruption auditor) -/

/-- A parsed JSON document, as `json.loads` returns it. -/
inductive Json where
  | null
  | bool (b : Bool)
  | num (n : Int)
  | str (s : String)
  | arr (xs : List Json)
  | obj (fields : List (String × Json))

/-- Python truthiness (`bool(value)`) of a JSON value. -/
def Json.truthy : Json → Bool
  | .null => false
  | .bool b => b
  | .num n => n != 0
  | .str s => s != ""
  | .arr xs => !xs.isEmpty
  | .obj fs => !fs.isEmpty

/-- An error record is a JSON object payload; Python `if asset.get("error"):`
is truthy only for a present, non-empty object. -/
abbrev ErrorRec := List (String × String)

/-- Truthiness of an optional error record. -/
def errTruthy : Option ErrorRec → Bool
  | none => false
  | some e => !e.isEmpty

/-! ## Data model: Asset, Task, Contract

Fields follow the JSON keys written by the source.  `exists` is a Lean
keyword, hence `exists_`.  Opaque passthrough blobs (`extra`,
`configuration`, `input_data`, `labels` contents, timestamps the claims
never mention) carry no logic in the engine and are either kept as plain
strings or omitted; `paths` (document self-location) belongs to the
out-of-scope persistence layer. -/

structure Asset where
  asset_id : String
  task_id : String
  role : String := "output"
  kind : String := "output"
  required : Bool := true
  uri : Option String := none
  local_path : Option String := none
  local_glob : Option String := none
  gcs_glob : Option String := none
  expected : Bool := false
  produced : Bool := false
  status : String := "expected"
  created_at : String := ""
  exists_ : Option Bool := none
  exists_reason : Option String := none
  corrupt : Option Bool := none
  corrupt_reason : Option String := none
  matched_outputs : List String := []
  error : Option ErrorRec := none
deriving Repr, DecidableEq

structure Task where
  task_id : String
  labels : List (String × String) := []
  status : String := "expected"
  created_at : String := ""
  started_at : Option String := none
  finished_at : Option String := none
  error : Option ErrorRec := none
  asset_ids : List String := []
deriving Repr, DecidableEq

structure Contract where
  run_status : String := "STARTED"
  tasks : List Task := []
  assets : List Asset := []
deriving Repr, DecidableEq

/-! ## External capabilities (`Env`)

`gsutil`, the filesystem and the SHA-1 digest are external collaborators;
each shell-out / syscall the engine performs is one oracle field. -/

/-- Result of one `subprocess.run(["gsutil", "ls", "-r", pattern], ...)`. -/
structure ProcOut where
  returncode : Int
  stdoutLines : List String
  stderr : String

/-- What the filesystem says about one local file, as `_read_json_from_asset`
inspects it: presence, regular-file flag, `stat().st_size`, and the result of
`json.loads(read_text())` (`none` for any read or parse failure). -/
structure LocalFile where
  fileExists : Bool
  isFile : Bool
  size : Nat
  json : Option Json

structure Env where
  /-- `Path(path).expanduser().resolve()` of `_normalize_local_path`. -/
  resolvePath : String → String
  /-- `Path(resolved).exists()`. -/
  pathExists : String → Bool
  /-- `Path(path).is_file()`. -/
  isFile : String → Bool
  /-- `glob.glob(pattern, recursive=True)`. -/
  globMatches : String → List String
  /-- `_command_exists("gsutil")`. -/
  gsutilAvailable : Bool
  /-- `gsutil ls -r pattern`. -/
  gsutilLs : String → ProcOut
  /-- `gsutil -q stat uri` returned 0. -/
  gsutilStatOk : String → Bool
  /-- local file inspection for `_read_json_from_asset`. -/
  localFile : String → LocalFile
  /-- `gsutil cat uri`: `none` for a non-zero exit, otherwise the byte count
  and the parse result of the payload. -/
  gsutilCat : String → Option (Nat × Option Json)
  /-- `hashlib.sha1(seed).hexdigest()[:12]`. -/
  sha1hex12 : String → String
  /-- `_load_json_file(Path(path).expanduser())`: the parsed JSON document,
  or `none` when the read or the parse raises. -/
  loadJsonFile : String → Option Json := fun _ => none

/-! ## Location resolver (`_normalize_gs_uri`) -/

/-- `_normalize_gs_uri`: trim, and for `gs://` URIs collapse redundant `/`
and strip trailing `/`. -/
def normalizeGsUri (uri : String) : String :=
  let value := trimStr uri
  if !startsWithStr "gs://" value then value
  else
    let rest := strDrop value 5
    "gs://" ++ dropRightSlashes ⟨collapseLoop rest.data.length rest.data⟩

/-! ## Existence checker (`_gsutil_ls`, `_gsutil_exists`, `_asset_exists`) -/

/-- `_gsutil_ls`: recursive listing with "matched no objects" distinguished
from hard failures; results are trimmed, non-`gs://` and directory lines are
dropped, survivors normalized then `sorted(set(...))`. -/
def gsutilLsFn (env : Env) (pattern : String) : Option (List String) × String :=
  if !env.gsutilAvailable then (none, "gsutil_unavailable")
  else
    let proc := env.gsutilLs pattern
    if proc.returncode != 0 then
      let stderr := replaceNewlines (trimStr proc.stderr)
      if containsSub "matched no objects" (lowerStr stderr) then (some [], "gcs_glob")
      else (none, "gsutil_ls_failed:" ++ (if stderr == "" then toString proc.returncode else stderr))
    else
      let out := proc.stdoutLines.filterMap (fun line =>
        let item := trimStr line
        if item == "" || !startsWithStr "gs://" item then none
        else if endsWithStr "/" item then none
        else some (normalizeGsUri item))
      (some (sortedDedup out), "gcs_glob")

/-- `_gsutil_exists`: stat a single `gs://` URI. -/
def gsutilExistsFn (env : Env) (uri : String) : Option Bool × String :=
  if !env.gsutilAvailable then (none, "gsutil_unavailable")
  else if env.gsutilStatOk uri then (some true, "gcs_uri")
  else (some false, "gcs_uri")

/-- `_asset_exists`: the location-kind dispatch, in source order
(local path, then `gs://` URI, then local glob, then GCS glob, else
`no_location`). -/
def assetExists (env : Env) (a : Asset) : Option Bool × String × List String :=
  if strOf a.local_path != "" then
    let resolved := env.resolvePath (strOf a.local_path)
    let ex := env.pathExists resolved
    (some ex, "local_path", if ex then [resolved] else [])
  else if strOf a.uri != "" && startsWithStr "gs://" (strOf a.uri) then
    let normalizedUri := normalizeGsUri (strOf a.uri)
    let r := gsutilExistsFn env normalizedUri
    (r.1, r.2, if r.1 == some true then [normalizedUri] else [])
  else if strOf a.local_glob != "" then
    let matched := sortedDedup ((env.globMatches (strOf a.local_glob)).filterMap
      (fun p => if env.isFile p then some (env.resolvePath p) else none))
    (some (!matched.isEmpty), "local_glob", matched)
  else if strOf a.gcs_glob != "" then
    match gsutilLsFn env (strOf a.gcs_glob) with
    | (none, reason) => (none, reason, [])
    | (some ms, reason) => (some (!ms.isEmpty), reason, ms)
  else (none, "no_location", [])

/-! ## Corruption auditor (`_read_json_from_asset` and the finalize snippet) -/

/-- `_read_json_from_asset`: bounded best-effort JSON read from the local
path, else the `gs://` URI; every failure mode is `none`. -/
def readJsonFromAsset (env : Env) (a : Asset) (maxBytes : Nat := 2000000) : Option Json :=
  if strOf a.local_path != "" then
    let f := env.localFile (strOf a.local_path)
    if !f.fileExists || !f.isFile then none
    else if f.size > maxBytes then none
    else f.json
  else if strOf a.uri != "" && startsWithStr "gs://" (strOf a.uri) then
    if !env.gsutilAvailable then none
    else
      match env.gsutilCat (strOf a.uri) with
      | none => none
      | some (size, js) => if size > maxBytes then none else js
  else none

/-- The corruption-audit snippet of `_cmd_finalize`: only for existing
`metadata`-kind assets when auditing is enabled; `corrupt` comes from a
`corrupt` field, else negated `success`; everything else is `(None, None)`.
A total function: no failure mode escapes as an exception. -/
def auditCorrupt (env : Env) (audit : Bool) (a : Asset) (ex : Option Bool) :
    Option Bool × Option String :=
  if audit && ex == some true && a.kind == "metadata" then
    match readJsonFromAsset env a with
    | some (Json.obj fields) =>
      match fields.lookup "corrupt" with
      | some v => (some v.truthy, some "metadata.corrupt")
      | none =>
        match fields.lookup "success" with
        | some v => (some (!v.truthy), some "metadata.success")
        | none => (none, none)
    | _ => (none, none)
  else (none, none)

/-! ## Folder partitioner (`_gcs_folder`, `_group_assets_by_folder`) -/

/-- `_gcs_folder`: the GCS folder implied by `uri` (URI directory, if below
the bucket) or by `gcs_glob` (fixed prefix before any wildcard token, if it
extends below the bucket); `none` otherwise. -/
def gcsFolder (a : Asset) : Option String :=
  let uri := strOf a.uri
  if uri != "" && startsWithStr "gs://" uri then
    let normalized := normalizeGsUri uri
    match lastIdxOf '/' normalized.data with
    | some idx => if idx > 5 then some (strTake normalized idx) else none
    | none => none
  else
    let g := strOf a.gcs_glob
    if g != "" && startsWithStr "gs://" g then
      let normalized := normalizeGsUri g
      let parts := splitSlash normalized
      let folderParts := parts.takeWhile (fun part =>
        !(part.data.any (fun ch => ch == '*' || ch == '?' || ch == '[' || ch == ']')))
      if folderParts.length > 2 then some (dropRightSlashes (joinSlash folderParts)) else none
    else none

/-- `groups.setdefault(folder, []).append(asset)` on an association list. -/
def addToGroup (groups : List (String × List Asset)) (f : String) (a : Asset) :
    List (String × List Asset) :=
  if groups.any (fun p => p.1 == f) then
    groups.map (fun p => if p.1 == f then (p.1, p.2 ++ [a]) else p)
  else groups ++ [(f, [a])]

/-- `_group_assets_by_folder`. -/
def groupAssetsByFolder (assets : List Asset) : List (String × List Asset) :=
  assets.foldl (fun gs a =>
    match gcsFolder a with
    | some f => addToGroup gs f a
    | none => gs) []

/-! ## In-place record mutation helpers

Python mutates the dict object an index lookup returned: `_ensure_task` /
`_ensure_asset` return the FIRST record with a given id, while the dict
comprehensions `_task_index` / `_asset_index` keep the LAST record per id.
`updateFirst` / `updateLast` replay such a mutation on an immutable list. -/

def updateFirst (p : α → Bool) (f : α → α) : List α → List α
  | [] => []
  | x :: xs => if p x then f x :: xs else x :: updateFirst p f xs

def updateLast (p : α → Bool) (f : α → α) (l : List α) : List α :=
  (updateFirst p f l.reverse).reverse

/-- `_asset_index(contract).get(k)`: the dict comprehension keeps the last
asset with each id. -/
def assetIndexFind (assets : List Asset) (k : String) : Option Asset :=
  assets.foldl (fun acc a => if a.asset_id == k then some a else acc) none

/-- The placeholder record `_ensure_task` synthesizes for an unseen id. -/
def newRunningTask (tid now : String) : Task :=
  { task_id := tid, labels := [], status := "running", created_at := now,
    started_at := some now, finished_at := none, error := none, asset_ids := [] }

/-- `_ensure_task`, as the task list after the call. -/
def ensureTask (tasks : List Task) (tid now : String) : List Task :=
  if tasks.any (fun t => t.task_id == tid) then tasks else tasks ++ [newRunningTask tid now]

/-- The record `_ensure_asset` synthesizes for an unseen id. -/
def newProducedAsset (aid tid now : String) : Asset :=
  { asset_id := aid, task_id := tid, role := "output", kind := "output", required := true,
    uri := none, local_path := none, local_glob := none, gcs_glob := none,
    expected := false, produced := true, status := "produced", created_at := now,
    exists_ := none, exists_reason := none, corrupt := none, corrupt_reason := none,
    matched_outputs := [], error := none }

/-- `_ensure_asset`, as the asset list after the call. -/
def ensureAsset (assets : List Asset) (aid tid now : String) : List Asset :=
  if assets.any (fun a => a.asset_id == aid) then assets
  else assets ++ [newProducedAsset aid tid now]

/-- `_parse_bool`. -/
def parseBool (raw : Option String) (dflt : Bool) : Bool :=
  match raw with
  | none => dflt
  | some r =>
    let v := lowerStr (trimStr r)
    if ["1", "true", "yes", "y", "on"].contains v then true
    else if ["0", "false", "no", "n", "off"].contains v then false
    else dflt

/-! ## `_set_task_status` (mark-task-running / succeeded / failed) -/

/-- The statuses that stamp `finished_at`. -/
def finishedStatuses : List String :=
  ["succeeded", "failed", "succeeded_with_missing_outputs",
   "succeeded_with_corrupt_outputs", "succeeded_with_unverified_outputs"]

/-- The mutation `_set_task_status` applies to the ensured task record. -/
def applyTaskStatus (status : String) (error : Option ErrorRec) (now : String) (t : Task) :
    Task :=
  let t := if status == "running" && strOf t.started_at == "" then
    { t with started_at := some now } else t
  let t := if finishedStatuses.contains status then { t with finished_at := some now } else t
  let t := { t with status := status }
  if error.isSome then { t with error := error } else t

/-- The per-asset mutation of the fast-fail cascade: status forced to
`failed`, and the error record copied when one was supplied. -/
def failAsset (error : Option ErrorRec) (a : Asset) : Asset :=
  { a with status := "failed", error := if error.isSome then error else a.error }

/-- The asset cascade of `_set_task_status` on `failed`: each listed id is
looked up in the last-wins asset index and that asset record mutated. -/
def failCascade (error : Option ErrorRec) (ids : List String) (assets : List Asset) :
    List Asset :=
  ids.foldl (fun as aid => updateLast (fun a => a.asset_id == aid) (failAsset error) as) assets

/-- The `asset_ids` of the (first-match) task with the given id. -/
def taskAssetIds (tasks : List Task) (tid : String) : List String :=
  match tasks.find? (fun t => t.task_id == tid) with
  | some t => t.asset_ids
  | none => []

/-- `_set_task_status`: ensure the task, stamp timestamps, set the status,
record the error, and on `failed` cascade to every asset listed in the
task's `asset_ids` (looked up through the last-wins asset index). -/
def setTaskStatus (c : Contract) (tid : String) (status : String) (error : Option ErrorRec)
    (now : String) : Contract :=
  let tasks := updateFirst (fun t => t.task_id == tid) (applyTaskStatus status error now)
    (ensureTask c.tasks tid now)
  if status == "failed" then
    { c with tasks := tasks, assets := failCascade error (taskAssetIds tasks tid) c.assets }
  else { c with tasks := tasks }

/-! ## `_cmd_record_produced` -/

structure RecordArgs where
  task_id : String
  asset_id : Option String := none
  kind : Option String := none
  required : Option String := none
  uri : Option String := none
  local_path : Option String := none
  local_glob : Option String := none
  gcs_glob : Option String := none
deriving Repr, DecidableEq

/-- The first truthy value of a Python `a or b or ... or dflt` chain. -/
def firstTruthy (xs : List (Option String)) (dflt : String) : String :=
  match xs with
  | [] => dflt
  | x :: rest => if strOf x != "" then strOf x else firstTruthy rest dflt

/-- Python `args.x or asset.get("x")`: keep the stored value unless the
argument is truthy — an existing location field is never cleared. -/
def locOr (arg old : Option String) : Option String :=
  if strOf arg != "" then arg else old

/-- The field updates `_cmd_record_produced` applies to the ensured asset. -/
def recordProducedUpdate (args : RecordArgs) (tid : String) (a : Asset) : Asset :=
  { a with
    task_id := tid,
    kind := (if strOf args.kind != "" then strOf args.kind
             else if a.kind != "" then a.kind else "output"),
    required := parseBool args.required a.required,
    uri := locOr args.uri a.uri,
    local_path := locOr args.local_path a.local_path,
    local_glob := locOr args.local_glob a.local_glob,
    gcs_glob := locOr args.gcs_glob a.gcs_glob,
    expected := a.expected,
    produced := true,
    status := "produced" }

/-- `_cmd_record_produced` (without the opaque `extra` merge): upsert the
task and the asset, update the asset's fields, and register the asset id in
the task's duplicate-free sorted `asset_ids`. -/
def cmdRecordProduced (env : Env) (args : RecordArgs) (c : Contract) (now : String) :
    Except String Contract :=
  let tid := trimStr args.task_id
  if tid == "" then .error "--task-id is required"
  else
    let tasks0 := ensureTask c.tasks tid now
    let tasks1 := updateFirst (fun t => t.task_id == tid) (fun t =>
      let t := if strOf t.started_at == "" then { t with started_at := some now } else t
      if t.status == "expected" || t.status == "" then { t with status := "running" } else t)
      tasks0
    let seed := firstTruthy [args.uri, args.local_path, args.local_glob, args.gcs_glob]
      (tid ++ ":" ++ now)
    let aid := if strOf args.asset_id != "" then strOf args.asset_id
               else tid ++ "/produced/" ++ env.sha1hex12 seed
    let assets0 := ensureAsset c.assets aid tid now
    let assets := updateFirst (fun a => a.asset_id == aid) (recordProducedUpdate args tid) assets0
    let tasks := updateFirst (fun t => t.task_id == tid) (fun t =>
      let ids := if t.asset_ids.contains aid then t.asset_ids else t.asset_ids ++ [aid]
      { t with asset_ids := sortedDedup ids }) tasks1
    .ok { c with tasks := tasks, assets := assets }

/-! ## `_cmd_preflight` -/

/-- The per-input-asset step of preflight: store the existence result and
derive the status from the tri-state alone (`ok` / `missing` / `unknown`). -/
def preflightAsset (env : Env) (a : Asset) : Asset :=
  let r := assetExists env a
  let a := { a with
    exists_ := r.1, exists_reason := some r.2.1,
    matched_outputs := if !r.2.2.isEmpty then r.2.2.take 200 else a.matched_outputs }
  if r.1 == some true then { a with status := "ok" }
  else if r.1 == some false then { a with status := "missing" }
  else { a with status := "unknown" }

structure PreflightOut where
  contract : Contract
  okCount : Nat
  missing_required : List String
  missing_optional : List String
  exit : Nat
deriving Repr, DecidableEq

/-- `_cmd_preflight`: check only `role == "input"` assets, collect the
missing-required/optional ids, and exit 2 exactly when strict and some
required input is missing. -/
def cmdPreflight (env : Env) (c : Contract) (strict : Bool) : PreflightOut :=
  let assets := c.assets.map (fun a => if a.role == "input" then preflightAsset env a else a)
  let inputAssets := assets.filter (fun a => a.role == "input")
  let okCount := (inputAssets.filter (fun a => a.exists_ == some true)).length
  let missingRequired :=
    (inputAssets.filter (fun a => a.exists_ == some false && a.required)).map (·.asset_id)
  let missingOptional :=
    (inputAssets.filter (fun a => a.exists_ == some false && !a.required)).map (·.asset_id)
  { contract := { c with assets := assets },
    okCount := okCount,
    missing_required := missingRequired,
    missing_optional := missingOptional,
    exit := if strict && !missingRequired.isEmpty then 2 else 0 }

/-! ## `_cmd_finalize` -/

/-- The `asset_ids` registration of the repair pass: a non-empty, not yet
listed asset id is appended and the list re-sorted duplicate-free. -/
def registerAssetId (aid : String) (t : Task) : Task :=
  if aid != "" && !t.asset_ids.contains aid then
    { t with asset_ids := sortedDedup (t.asset_ids ++ [aid]) }
  else t

/-- The task-side effect of repairing one asset whose (possibly defaulted)
task id is already non-empty: synthesize the task when missing and register
the asset id in the (last-wins indexed) task's `asset_ids`. -/
def repairApply (now : String) (acc : List Task × List Asset) (a : Asset) :
    List Task × List Asset :=
  (updateLast (fun t => t.task_id == a.task_id) (registerAssetId a.asset_id)
    (ensureTask acc.1 a.task_id now), acc.2 ++ [a])

/-- The repair pass over one asset: default an empty `task_id` to
`unassigned`, then apply the task-side repair. -/
def repairStep (now : String) (acc : List Task × List Asset) (a0 : Asset) :
    List Task × List Asset :=
  repairApply now acc (if a0.task_id == "" then { a0 with task_id := "unassigned" } else a0)

/-- The "ensure task references are consistent" loop of `_cmd_finalize`. -/
def repairContract (c : Contract) (now : String) : Contract :=
  let r := c.assets.foldl (repairStep now) (c.tasks, [])
  { c with tasks := r.1, assets := r.2 }

/-- `uri or local_path or local_glob or gcs_glob`, the location-declared
guard of the finalize status recomputation. -/
def hasLocation (a : Asset) : Bool :=
  strOf a.uri != "" || strOf a.local_path != "" ||
  strOf a.local_glob != "" || strOf a.gcs_glob != ""

/-- The finalize status cascade of §4.2, exactly as the source orders it. -/
def finalizeAssetStatus (a : Asset) (ex : Option Bool) (corrupt : Option Bool) : String :=
  if errTruthy a.error then "failed"
  else if ex == some false && hasLocation a then "missing"
  else if corrupt == some true then "corrupt"
  else if ex == some true then "ok"
  else if ex == none && hasLocation a then "unknown"
  else if a.produced then "produced" else "expected"

/-- The per-asset step of finalize: resolve existence, audit corruption,
store both, and recompute the status. -/
def finalizeAsset (env : Env) (audit : Bool) (a : Asset) : Asset :=
  let r := assetExists env a
  let co := auditCorrupt env audit a r.1
  { a with
    exists_ := r.1, exists_reason := some r.2.1,
    matched_outputs := if !r.2.2.isEmpty then r.2.2.take 200 else a.matched_outputs,
    corrupt := co.1, corrupt_reason := co.2,
    status := finalizeAssetStatus a r.1 co.1 }

/-- The task-level rollup of `_cmd_finalize`, as a function of the task's
prior status and the statuses of its required assets. -/
def taskRollupStatus (existing : String) (ss : List String) : String :=
  if existing == "failed" then "failed"
  else if !ss.isEmpty then
    if ss.any (· == "failed") then "failed"
    else if ss.any (· == "missing") then "succeeded_with_missing_outputs"
    else if ss.any (· == "corrupt") then "succeeded_with_corrupt_outputs"
    else if ss.any (· == "unknown") then "succeeded_with_unverified_outputs"
    else if ss.all (· == "ok") then "succeeded"
    else if existing == "" then "unknown" else existing
  else if existing == "" || existing == "expected" || existing == "running" ||
          existing == "produced" then "succeeded"
  else if existing == "" then "unknown" else existing

/-- The statuses of a task's required assets: each id of `asset_ids` looked
up in the last-wins asset index, unrequired and unresolved ids dropped. -/
def requiredStatusesFor (assets : List Asset) (t : Task) : List String :=
  (t.asset_ids.filterMap (fun aid =>
    match assetIndexFind assets aid with
    | some a => if a.required then some a else none
    | none => none)).map (fun a => if a.status == "" then "unknown" else a.status)

/-- The per-task finalize step: rollup status plus idempotent `finished_at`. -/
def rollupTask (assets : List Asset) (now : String) (t : Task) : Task :=
  { t with
    status := taskRollupStatus t.status (requiredStatusesFor assets t),
    finished_at := if strOf t.finished_at != "" then t.finished_at else some now }

structure FinalizeArgs where
  strict : Bool := false
  status : Option String := none
  audit_corruption : Option String := none
  verification_json_file : Option String := none
deriving Repr, DecidableEq

structure FinalizeOut where
  contract : Contract
  missing_required : List String
  corrupt_required : List String
  unknown_required : List String
  failedTaskCount : Nat
  exit : Nat
deriving Repr, DecidableEq

/-- The run-level status: a non-empty (stripped) caller override wins,
otherwise the FAILED / FINISHED_WITH_ISSUES /
FINISHED_WITH_UNVERIFIED_OUTPUTS / FINISHED cascade. -/
def runStatusOf (overrideStatus : Option String) (failedTaskCount : Nat)
    (missingReq corruptReq unknownReq : List String) : String :=
  let o := trimStr (strOf overrideStatus)
  if o != "" then o
  else if failedTaskCount > 0 then "FAILED"
  else if !missingReq.isEmpty || !corruptReq.isEmpty then "FINISHED_WITH_ISSUES"
  else if !unknownReq.isEmpty then "FINISHED_WITH_UNVERIFIED_OUTPUTS"
  else "FINISHED"

/-- The `--verification-json-file` step of `_cmd_finalize`: a falsy (absent
or empty) argument skips the merge; otherwise the named file is loaded, a
read or parse failure or a non-object payload raises (`ValueError`), and an
object's fields overwrite the matching computed verification entries. -/
def verificationExtra (env : Env) (args : FinalizeArgs) :
    Except String (List (String × Json)) :=
  if strOf args.verification_json_file != "" then
    match env.loadJsonFile (strOf args.verification_json_file) with
    | none => Except.error "verification json file failed to load"
    | some (Json.obj fields) => Except.ok fields
    | some _ => Except.error "--verification-json-file must be a JSON object"
  else Except.ok []

/-- One post-merge `verification.get(key)` truthiness test of the strict
exit check: a key the merged extra object carries is read from it (Python
truthiness of its JSON value); otherwise the computed entry — a
`sorted(set(...))` list — is consulted, and it is truthy exactly when the
underlying triage list is non-empty. -/
def verificationGet (extra : List (String × Json)) (key : String)
    (computed : List String) : Bool :=
  match extra.lookup key with
  | some v => v.truthy
  | none => !(sortedDedup computed).isEmpty

/-- The body of `_cmd_finalize` given a successfully merged extra
verification object: repair, per-asset existence/corruption/status,
required-asset triage lists, task rollup, run status, and the strict
completion signal read from the post-merge verification entries.  The
unexpected-output scan and the GCS publication fan-out write report fields
and uploads only; they do not feed back into any status or into the
entries the exit code reads, and stay outside the embedding. -/
def cmdFinalizeWith (env : Env) (args : FinalizeArgs) (c : Contract) (now : String)
    (extra : List (String × Json)) : FinalizeOut :=
  let audit := parseBool args.audit_corruption true
  let c1 := repairContract c now
  let assets := c1.assets.map (finalizeAsset env audit)
  let missingReq := assets.filterMap (fun a =>
    if a.required && (a.status == "missing" || a.status == "failed") then some a.asset_id
    else none)
  let corruptReq := assets.filterMap (fun a =>
    if a.required && a.status == "corrupt" then some a.asset_id else none)
  let unknownReq := assets.filterMap (fun a =>
    if a.required && a.status == "unknown" then some a.asset_id else none)
  let tasks := c1.tasks.map (rollupTask assets now)
  let failedTaskCount := (tasks.filter (fun t => t.status == "failed")).length
  let runStatus := runStatusOf args.status failedTaskCount missingReq corruptReq unknownReq
  let exitCode :=
    if args.strict &&
       (verificationGet extra "missing_required_asset_ids" missingReq ||
        verificationGet extra "corrupt_required_asset_ids" corruptReq ||
        verificationGet extra "unverified_required_asset_ids" unknownReq ||
        decide (failedTaskCount > 0))
    then 2 else 0
  { contract := { run_status := runStatus, tasks := tasks, assets := assets },
    missing_required := missingReq, corrupt_required := corruptReq,
    unknown_required := unknownReq, failedTaskCount := failedTaskCount, exit := exitCode }

/-- `_cmd_finalize`: the `--verification-json-file` step runs before the
run-status write and the exit check, and a failure there raises out of the
command (`Except.error`); on success the command returns the finalized
document state and the completion signal. -/
def cmdFinalize (env : Env) (args : FinalizeArgs) (c : Contract) (now : String) :
    Except String FinalizeOut :=
  match verificationExtra env args with
  | Except.error e => Except.error e
  | Except.ok extra => Except.ok (cmdFinalizeWith env args c now extra)

/-! ## Proof-support definitions -/

/-- The last list element with a given task id — what the last-wins dict
index `_task_index(contract)[tid]` denotes on a task list. -/
def lastWith (tasks : List Task) (tid : String) : Option Task :=
  tasks.reverse.find? (fun t => t.task_id == tid)

/-- The per-asset invariant the finalize repair pass establishes:
the task the asset points at exists, and lists the asset's id when that id
is non-empty. -/
def RepairedOk (tasks : List Task) (a : Asset) : Prop :=
  ∃ t, lastWith tasks a.task_id = some t ∧ (a.asset_id ≠ "" → a.asset_id ∈ t.asset_ids)

/-- The folder-partition invariant carried through `groupAssetsByFolder`:
folder keys are unique, every grouped asset's derived folder is its group's
key and the asset was seen, and every seen asset with a derivable folder is
in the group keyed by that folder. -/
def GroupsOk (groups : List (String × List Asset)) (seen : List Asset) : Prop :=
  (groups.map Prod.fst).Nodup ∧
  (∀ g ∈ groups, ∀ a ∈ g.2, gcsFolder a = some g.1 ∧ a ∈ seen) ∧
  (∀ a ∈ seen, ∀ f, gcsFolder a = some f → ∃ g ∈ groups, g.1 = f ∧ a ∈ g.2)

/-- Modelled from the spec: an "object-storage-destined" asset — one whose
declared location includes an object-storage (`gs://`) URI or glob.  Stated
from the specification's wording, to be compared with the folder
partitioner's own notion of having a derivable folder. -/
def specObjectStorageDestined (a : Asset) : Bool :=
  (strOf a.uri != "" && startsWithStr "gs://" (strOf a.uri)) ||
  (strOf a.gcs_glob != "" && startsWithStr "gs://" (strOf a.gcs_glob))

/-! ## Concrete environments and documents for witnesses and counterexamples -/

/-- An environment where every external capability is absent or negative:
no `gsutil`, no file exists, globs match nothing. -/
def envNone : Env :=
  { resolvePath := fun s => s, pathExists := fun _ => false, isFile := fun _ => false,
    globMatches := fun _ => [], gsutilAvailable := false,
    gsutilLs := fun _ => ⟨1, [], ""⟩, gsutilStatOk := fun _ => false,
    localFile := fun _ => ⟨false, false, 0, none⟩, gsutilCat := fun _ => none,
    sha1hex12 := fun _ => "d41d8cd98f00" }

/-- `envNone` with every local path reported present. -/
def envTrue : Env := { envNone with pathExists := fun _ => true }

/-- A required input asset that declares no location at all. -/
def inputNoLoc : Asset := { asset_id := "in1", task_id := "t", role := "input" }

/-- A document holding only `inputNoLoc`. -/
def preflightDoc : Contract := { assets := [inputNoLoc] }

/-- A document with one running task owning one produced local-path asset. -/
def docC2 : Contract :=
  { tasks := [{ task_id := "t", status := "running", asset_ids := ["a"] }],
    assets := [{ asset_id := "a", task_id := "t", local_path := some "p", produced := true }] }

/-- A required local-path asset with id `x` (used by the rollup examples). -/
def reqX : Asset := { asset_id := "x", task_id := "t", local_path := some "p" }

/-- An unrequired, location-free asset that shares id `x` with `reqX`. -/
def shadowX : Asset := { asset_id := "x", task_id := "t", required := false, produced := true }

/-- A required, location-free asset with id `x` carrying an explicit error. -/
def errX : Asset := { asset_id := "x", task_id := "t", error := some [("message", "boom")] }

/-- One running task that owns asset id `x`. -/
def taskX : Task := { task_id := "t", status := "running", asset_ids := ["x"] }

/-- Shadowed document: the unrequired `shadowX` wins the last-wins index
over the required `reqX`. -/
def docShadow : Contract := { tasks := [taskX], assets := [reqX, shadowX] }

/-- The same document without the shadowing asset. -/
def docPlain : Contract := { tasks := [taskX], assets := [reqX] }

/-- Duplicate-id document: a required error-failed asset shadowed in the
index by a required existing asset with the same id. -/
def docDupIds : Contract := { tasks := [taskX], assets := [errX, reqX] }

/-- A document whose only asset has an empty id. -/
def docEmptyAid : Contract := { assets := [{ asset_id := "", task_id := "t" }] }

/-- An asset whose URI names a bare bucket: object-storage-destined, yet no
folder is derivable from it. -/
def bucketAsset : Asset := { asset_id := "b", task_id := "t", uri := some "gs://bucket" }

/-- An asset with an object path below its bucket, so a folder is derivable. -/
def folderAssetW : Asset :=
  { asset_id := "w", task_id := "t", uri := some "gs://bucket/file" }

/-- An asset whose only declared location is an object-storage glob. -/
def globAsset : Asset := { asset_id := "g", task_id := "t", gcs_glob := some "gs://b/*" }

/-- A metadata-kind asset backed by a local JSON file. -/
def metaAsset : Asset :=
  { asset_id := "m", task_id := "t", kind := "metadata", local_path := some "meta.json" }

/-- An environment whose local files hold `{"corrupt": true}` metadata. -/
def envMetaCorrupt : Env :=
  { envTrue with
    localFile := fun _ => ⟨true, true, 10, some (Json.obj [("corrupt", Json.bool true)])⟩ }

/-- A concrete non-empty error payload. -/
def errW : ErrorRec := [("message", "boom")]

/-- The task of `docC2` after `_set_task_status(..., "failed", errW)`. -/
def taskTW : Task :=
  { task_id := "t", status := "failed", finished_at := some "n", error := some errW,
    asset_ids := ["a"] }

/-- The asset of `docC2` after the failed cascade with payload `errW`. -/
def assetAW : Asset :=
  { asset_id := "a", task_id := "t", local_path := some "p", produced := true,
    status := "failed", error := some errW }

/-- A required input asset whose local path the environment reports absent. -/
def inputMissing : Asset :=
  { asset_id := "im", task_id := "t", role := "input", local_path := some "p" }

/-- A document holding only `inputMissing`. -/
def preflightMissingDoc : Contract := { assets := [inputMissing] }

/-- A verification-override object that replaces the three triage entries
the strict exit check reads with empty (falsy) arrays. -/
def maskExtra : Json :=
  Json.obj [("missing_required_asset_ids", Json.arr []),
            ("corrupt_required_asset_ids", Json.arr []),
            ("unverified_required_asset_ids", Json.arr [])]

/-- `envNone` with a loadable verification-override file holding
`maskExtra`. -/
def envMask : Env := { envNone with loadJsonFile := fun _ => some maskExtra }

/-! # Theorems

## Lemmas about `sortedDedup` -/

theorem mem_sortedDedup (a : String) (l : List String) : a ∈ sortedDedup l ↔ a ∈ l := by
  unfold sortedDedup
  rw [(List.perm_insertionSort StrLe l.dedup).mem_iff, List.mem_dedup]

theorem sortedDedup_sorted (l : List String) : (sortedDedup l).Sorted StrLe :=
  List.sorted_insertionSort _ _

theorem sortedDedup_nodup (l : List String) : (sortedDedup l).Nodup :=
  (List.perm_insertionSort StrLe l.dedup).nodup_iff.mpr l.nodup_dedup

theorem sortedDedup_eq_nil_iff (l : List String) : sortedDedup l = [] ↔ l = [] := by
  constructor
  · intro h
    cases l with
    | nil => rfl
    | cons x xs =>
      have hx : x ∈ sortedDedup (x :: xs) := (mem_sortedDedup _ _).mpr (List.mem_cons_self _ _)
      rw [h] at hx
      cases hx
  · intro h; subst h; rfl

/-! ## Lemmas about `updateFirst` / `updateLast` -/

theorem updateFirst_of_all_neg {α : Type} (p : α → Bool) (f : α → α) :
    ∀ l : List α, (∀ x ∈ l, p x = false) → updateFirst p f l = l
  | [], _ => rfl
  | x :: xs, h => by
    have hx := h x (List.mem_cons_self _ _)
    simp only [updateFirst, hx]
    simp [updateFirst_of_all_neg p f xs (fun y hy => h y (List.mem_cons_of_mem _ hy))]

theorem mem_updateFirst {α : Type} {p : α → Bool} {f : α → α} :
    ∀ {l : List α} {a : α}, a ∈ updateFirst p f l →
      a ∈ l ∨ ∃ b, b ∈ l ∧ p b = true ∧ a = f b := by
  intro l
  induction l with
  | nil => intro a h; cases h
  | cons x xs ih =>
    intro a h
    by_cases hx : p x = true
    · rw [updateFirst, if_pos hx] at h
      rcases List.mem_cons.mp h with h1 | h1
      · exact Or.inr ⟨x, List.mem_cons_self _ _, hx, h1⟩
      · exact Or.inl (List.mem_cons_of_mem _ h1)
    · rw [updateFirst, if_neg hx] at h
      rcases List.mem_cons.mp h with h1 | h1
      · exact Or.inl (h1 ▸ List.mem_cons_self _ _)
      · rcases ih h1 with h2 | ⟨b, hb, hpb, hab⟩
        · exact Or.inl (List.mem_cons_of_mem _ h2)
        · exact Or.inr ⟨b, List.mem_cons_of_mem _ hb, hpb, hab⟩

theorem mem_updateLast {α : Type} {p : α → Bool} {f : α → α} {l : List α} {a : α}
    (h : a ∈ updateLast p f l) : a ∈ l ∨ ∃ b, b ∈ l ∧ p b = true ∧ a = f b := by
  unfold updateLast at h
  rw [List.mem_reverse] at h
  rcases mem_updateFirst h with h1 | ⟨b, hb, hpb, hab⟩
  · exact Or.inl (List.mem_reverse.mp h1)
  · exact Or.inr ⟨b, List.mem_reverse.mp hb, hpb, hab⟩

theorem map_updateFirst {α β : Type} (g : α → β) (p : α → Bool) (f : α → α)
    (hg : ∀ b, g (f b) = g b) : ∀ l : List α, (updateFirst p f l).map g = l.map g
  | [] => rfl
  | x :: xs => by
    by_cases hx : p x = true
    · simp [updateFirst, hx, hg]
    · simp [updateFirst, hx, map_updateFirst g p f hg xs]

theorem map_updateLast {α β : Type} (g : α → β) (p : α → Bool) (f : α → α)
    (hg : ∀ b, g (f b) = g b) (l : List α) : (updateLast p f l).map g = l.map g := by
  unfold updateLast
  rw [List.map_reverse, map_updateFirst g p f hg, ← List.map_reverse, List.reverse_reverse]

theorem updateFirst_decomp {α : Type} {p : α → Bool} (f : α → α) :
    ∀ {l : List α}, (∃ x ∈ l, p x = true) →
      ∃ l1 b l2, l = l1 ++ b :: l2 ∧ (∀ x ∈ l1, p x = false) ∧ p b = true ∧
        updateFirst p f l = l1 ++ f b :: l2 := by
  intro l
  induction l with
  | nil => intro h; simp at h
  | cons x xs ih =>
    intro h
    by_cases hx : p x = true
    · exact ⟨[], x, xs, rfl, by simp, hx, by simp [updateFirst, hx]⟩
    · have hx' : p x = false := by simpa using hx
      have hxs : ∃ y ∈ xs, p y = true := by
        rcases h with ⟨y, hy, hpy⟩
        rcases List.mem_cons.mp hy with rfl | hy'
        · rw [hpy] at hx'; cases hx'
        · exact ⟨y, hy', hpy⟩
      obtain ⟨l1, b, l2, e1, e2, e3, e4⟩ := ih hxs
      refine ⟨x :: l1, b, l2, by rw [List.cons_append, ← e1], ?_, e3, ?_⟩
      · intro z hz
        rcases List.mem_cons.mp hz with rfl | hz'
        · exact hx'
        · exact e2 z hz'
      · rw [updateFirst, if_neg hx, e4, List.cons_append]

theorem find?_updateFirst_self {α : Type} (q : α → Bool) (f : α → α)
    (hq : ∀ x, q (f x) = q x) :
    ∀ l : List α, (updateFirst q f l).find? q = (l.find? q).map f
  | [] => rfl
  | x :: xs => by
    by_cases hx : q x = true
    · rw [updateFirst, if_pos hx,
        List.find?_cons_of_pos _ (by rw [hq]; exact hx), List.find?_cons_of_pos _ hx]
      rfl
    · have hx' : q x = false := by simpa using hx
      rw [updateFirst, if_neg hx, List.find?_cons_of_neg _ hx, List.find?_cons_of_neg _ hx]
      exact find?_updateFirst_self q f hq xs

theorem find?_updateFirst_other {α : Type} (q p : α → Bool) (f : α → α)
    (h : ∀ x, p x = true → q x = false ∧ q (f x) = false) :
    ∀ l : List α, (updateFirst p f l).find? q = l.find? q
  | [] => rfl
  | x :: xs => by
    by_cases hx : p x = true
    · obtain ⟨h1, h2⟩ := h x hx
      rw [updateFirst, if_pos hx, List.find?_cons_of_neg _ (by simp [h2]),
        List.find?_cons_of_neg _ (by simp [h1])]
    · by_cases hq : q x = true
      · rw [updateFirst, if_neg hx, List.find?_cons_of_pos _ hq, List.find?_cons_of_pos _ hq]
      · rw [updateFirst, if_neg hx, List.find?_cons_of_neg _ hq, List.find?_cons_of_neg _ hq]
        exact find?_updateFirst_other q p f h xs

/-! ## Lemmas about `lastWith` and `ensureTask` -/

theorem lastWith_mem {l : List Task} {tid : String} {t : Task}
    (h : lastWith l tid = some t) : t ∈ l ∧ t.task_id = tid := by
  unfold lastWith at h
  refine ⟨List.mem_reverse.mp (List.mem_of_find?_eq_some h), ?_⟩
  have := List.find?_some h
  simpa using this

theorem lastWith_isSome_of_any {l : List Task} {tid : String}
    (h : l.any (fun t => t.task_id == tid) = true) : (lastWith l tid).isSome := by
  unfold lastWith
  rw [List.find?_isSome]
  rcases List.any_eq_true.mp h with ⟨t, ht, hp⟩
  exact ⟨t, List.mem_reverse.mpr ht, hp⟩

theorem any_of_lastWith_some {l : List Task} {tid : String} {t : Task}
    (h : lastWith l tid = some t) : l.any (fun u => u.task_id == tid) = true := by
  obtain ⟨hm, he⟩ := lastWith_mem h
  exact List.any_eq_true.mpr ⟨t, hm, by simp [he]⟩

theorem lastWith_append_single (l : List Task) (t0 : Task) (tid : String) :
    lastWith (l ++ [t0]) tid =
      if t0.task_id == tid then some t0 else lastWith l tid := by
  unfold lastWith
  rw [List.reverse_append]
  simp only [List.reverse_singleton, List.singleton_append]
  by_cases h : t0.task_id == tid
  · rw [if_pos h]
    exact List.find?_cons_of_pos _ h
  · rw [if_neg h]
    exact List.find?_cons_of_neg _ (by simpa using h)

theorem lastWith_ensureTask (l : List Task) (tid now : String) :
    lastWith (ensureTask l tid now) tid =
      match lastWith l tid with
      | some t => some t
      | none => some (newRunningTask tid now) := by
  unfold ensureTask
  by_cases h : l.any (fun t => t.task_id == tid) = true
  · rw [if_pos h]
    have := lastWith_isSome_of_any h
    cases hl : lastWith l tid with
    | some t => rfl
    | none => rw [hl] at this; cases this
  · rw [if_neg h, lastWith_append_single, if_pos (by simp [newRunningTask])]
    cases hl : lastWith l tid with
    | some t => exact absurd (any_of_lastWith_some hl) h
    | none => rfl

theorem lastWith_ensureTask_other (l : List Task) (tid now tid' : String) (hne : tid ≠ tid') :
    lastWith (ensureTask l tid now) tid' = lastWith l tid' := by
  unfold ensureTask
  by_cases h : l.any (fun t => t.task_id == tid) = true
  · rw [if_pos h]
  · rw [if_neg h, lastWith_append_single, if_neg (by simp [newRunningTask, hne])]

theorem lastWith_updateLast_self (l : List Task) (tid : String) (f : Task → Task)
    (hf : ∀ t, (f t).task_id = t.task_id) :
    lastWith (updateLast (fun t => t.task_id == tid) f l) tid = (lastWith l tid).map f := by
  unfold lastWith updateLast
  rw [List.reverse_reverse]
  exact find?_updateFirst_self _ f (fun x => by rw [hf]) l.reverse

theorem lastWith_updateLast_other (l : List Task) (tid tid' : String) (hne : tid ≠ tid')
    (f : Task → Task) (hf : ∀ t, (f t).task_id = t.task_id) :
    lastWith (updateLast (fun t => t.task_id == tid) f l) tid' = lastWith l tid' := by
  unfold lastWith updateLast
  rw [List.reverse_reverse]
  apply find?_updateFirst_other
  intro x hx
  have hid : x.task_id = tid := by simpa using hx
  constructor
  · simp only [hid, beq_eq_false_iff_ne, ne_eq]
    exact hne
  · simp only [hf, hid, beq_eq_false_iff_ne, ne_eq]
    exact hne

/-! ## Lemmas about the last-wins asset index -/

theorem find?_append_single {α : Type} (p : α → Bool) (x : α) :
    ∀ m : List α, (m ++ [x]).find? p =
      match m.find? p with
      | some y => some y
      | none => if p x then some x else none
  | [] => by
    show [x].find? p = if p x = true then some x else none
    by_cases hx : p x = true
    · rw [if_pos hx]
      exact List.find?_cons_of_pos _ hx
    · rw [if_neg hx, List.find?_cons_of_neg _ hx]
      rfl
  | y :: m => by
    by_cases hy : p y = true
    · simp [List.find?_cons_of_pos _ hy]
    · rw [List.cons_append, List.find?_cons_of_neg _ hy, List.find?_cons_of_neg _ hy]
      exact find?_append_single p x m

theorem foldl_pick_last (p : Asset → Bool) :
    ∀ (l : List Asset) (acc : Option Asset),
      l.foldl (fun acc a => if p a then some a else acc) acc =
        match l.reverse.find? p with
        | some x => some x
        | none => acc
  | [], acc => rfl
  | x :: xs, acc => by
    rw [List.foldl_cons, foldl_pick_last p xs, List.reverse_cons, find?_append_single]
    cases xs.reverse.find? p with
    | some y => rfl
    | none => by_cases hx : p x = true <;> simp [hx]

theorem assetIndexFind_eq (l : List Asset) (k : String) :
    assetIndexFind l k = l.reverse.find? (fun a => a.asset_id == k) := by
  unfold assetIndexFind
  rw [foldl_pick_last]
  cases l.reverse.find? (fun a => a.asset_id == k) <;> rfl

theorem assetIndexFind_mem {l : List Asset} {k : String} {a : Asset}
    (h : assetIndexFind l k = some a) : a ∈ l ∧ a.asset_id = k := by
  rw [assetIndexFind_eq] at h
  exact ⟨List.mem_reverse.mp (List.mem_of_find?_eq_some h), by simpa using List.find?_some h⟩

theorem assetIndexFind_eq_none {l : List Asset} {k : String}
    (h : ∀ a ∈ l, a.asset_id ≠ k) : assetIndexFind l k = none := by
  rw [assetIndexFind_eq, List.find?_eq_none]
  intro a ha
  simpa using h a (List.mem_reverse.mp ha)

theorem nodup_id_inj {l : List Asset} (hnd : (l.map Asset.asset_id).Nodup)
    {a b : Asset} (ha : a ∈ l) (hb : b ∈ l) (hab : a.asset_id = b.asset_id) : a = b :=
  List.inj_on_of_nodup_map hnd ha hb hab

theorem assetIndexFind_of_nodup {l : List Asset} (hnd : (l.map Asset.asset_id).Nodup)
    {a : Asset} (ha : a ∈ l) : assetIndexFind l a.asset_id = some a := by
  rw [assetIndexFind_eq]
  cases hf : l.reverse.find? (fun x => x.asset_id == a.asset_id) with
  | none =>
    rw [List.find?_eq_none] at hf
    exact absurd (by simp : (a.asset_id == a.asset_id) = true)
      (by simpa using hf a (List.mem_reverse.mpr ha))
  | some b =>
    have hb := List.mem_reverse.mp (List.mem_of_find?_eq_some hf)
    have hid : b.asset_id = a.asset_id := by simpa using List.find?_some hf
    rw [nodup_id_inj hnd hb ha hid]

/-! ## Updating the last asset with a given id -/

theorem mem_updateLast_ne_id {l : List Asset} {k : String} {f : Asset → Asset}
    (hf : ∀ x, (f x).asset_id = x.asset_id) {a : Asset}
    (ha : a ∈ updateLast (fun x => x.asset_id == k) f l) (hid : a.asset_id ≠ k) : a ∈ l := by
  rcases mem_updateLast ha with h | ⟨b, hb, hpb, rfl⟩
  · exact h
  · exact absurd (by rw [hf]; simpa using hpb) hid

theorem mem_updateLast_eq_id {l : List Asset} {k : String} {f : Asset → Asset}
    (_hf : ∀ x, (f x).asset_id = x.asset_id)
    (hnd : (l.map Asset.asset_id).Nodup) {a : Asset}
    (ha : a ∈ updateLast (fun x => x.asset_id == k) f l) (hid : a.asset_id = k) :
    ∃ b, b ∈ l ∧ b.asset_id = k ∧ a = f b := by
  unfold updateLast at ha
  rw [List.mem_reverse] at ha
  by_cases hex : ∃ x ∈ l.reverse, (x.asset_id == k) = true
  · obtain ⟨m1, b, m2, e1, e2, e3, e4⟩ := updateFirst_decomp f hex
    rw [e4] at ha
    have hbid : b.asset_id = k := by simpa using e3
    have hbmem : b ∈ l := List.mem_reverse.mp (e1 ▸ List.mem_append_right m1 (List.mem_cons_self _ _))
    rcases List.mem_append.mp ha with h1 | h1
    · have := e2 a h1
      rw [hid] at this
      simp at this
    · rcases List.mem_cons.mp h1 with rfl | h2
      · exact ⟨b, hbmem, hbid, rfl⟩
      · exfalso
        have hndr : (l.reverse.map Asset.asset_id).Nodup := by
          rw [List.map_reverse]
          exact List.nodup_reverse.mpr hnd
        rw [e1, List.map_append, List.map_cons] at hndr
        have hnotin : b.asset_id ∉ m2.map Asset.asset_id :=
          (List.nodup_cons.mp (List.nodup_append.mp hndr).2.1).1
        exact hnotin (by rw [hbid, ← hid]; exact List.mem_map_of_mem _ h2)
  · have hall : ∀ x ∈ l.reverse, (x.asset_id == k) = false := by
      intro x hx
      by_contra hcon
      exact hex ⟨x, hx, by simpa using hcon⟩
    rw [updateFirst_of_all_neg _ f _ hall] at ha
    exact absurd ⟨a, ha, by simp [hid]⟩ hex

/-! ## The failed-task asset cascade (`_set_task_status`) -/

theorem foldl_updateLast_fail (err : Option ErrorRec) :
    ∀ (ids : List String) (l : List Asset), (l.map Asset.asset_id).Nodup →
      ∀ a ∈ ids.foldl (fun as aid =>
          updateLast (fun x => x.asset_id == aid) (failAsset err) as) l,
        (a.asset_id ∈ ids → a.status = "failed" ∧ (err.isSome = true → a.error = err)) ∧
        (a.asset_id ∉ ids → a ∈ l)
  | [], l, hnd => by
    intro a ha
    exact ⟨fun h => absurd h (List.not_mem_nil _), fun _ => ha⟩
  | aid0 :: rest, l, hnd => by
    intro a ha
    rw [List.foldl_cons] at ha
    have hfid : ∀ x : Asset, (failAsset err x).asset_id = x.asset_id := fun x => rfl
    have hnd' : ((updateLast (fun x => x.asset_id == aid0) (failAsset err) l).map
        Asset.asset_id).Nodup := by
      rw [map_updateLast _ _ _ hfid]
      exact hnd
    have IH := foldl_updateLast_fail err rest _ hnd' a ha
    constructor
    · intro hin
      rcases List.mem_cons.mp hin with heq | hin'
      · by_cases hr : a.asset_id ∈ rest
        · exact IH.1 hr
        · obtain ⟨b, hb, hbid, hab⟩ := mem_updateLast_eq_id hfid hnd (IH.2 hr) heq
          subst hab
          exact ⟨rfl, fun hs => by simp [failAsset, hs]⟩
      · exact IH.1 hin'
    · intro hnin
      have hr : a.asset_id ∉ rest := fun h => hnin (List.mem_cons_of_mem _ h)
      have hne : a.asset_id ≠ aid0 := fun h => hnin (h ▸ List.mem_cons_self _ _)
      exact mem_updateLast_ne_id hfid (IH.2 hr) hne

/-! ## The finalize repair invariant -/

theorem registerAssetId_task_id (aid : String) (t : Task) :
    (registerAssetId aid t).task_id = t.task_id := by
  unfold registerAssetId
  split <;> rfl

theorem contains_iff_mem (l : List String) (x : String) : l.contains x = true ↔ x ∈ l := by
  simp [List.contains]

theorem mem_registerAssetId_of_mem (aid : String) (t : Task) {x : String}
    (hx : x ∈ t.asset_ids) : x ∈ (registerAssetId aid t).asset_ids := by
  unfold registerAssetId
  split
  · show x ∈ sortedDedup (t.asset_ids ++ [aid])
    rw [mem_sortedDedup]
    exact List.mem_append_left _ hx
  · exact hx

theorem self_mem_registerAssetId {aid : String} (hne : aid ≠ "") (t : Task) :
    aid ∈ (registerAssetId aid t).asset_ids := by
  unfold registerAssetId
  by_cases hc : t.asset_ids.contains aid = true
  · have hm : aid ∈ t.asset_ids := (contains_iff_mem _ _).mp hc
    rw [if_neg (by simp [hm])]
    exact hm
  · have hm : aid ∉ t.asset_ids := fun h => hc ((contains_iff_mem _ _).mpr h)
    rw [if_pos (by simp [hne, hm])]
    show aid ∈ sortedDedup (t.asset_ids ++ [aid])
    rw [mem_sortedDedup]
    exact List.mem_append_right _ (List.mem_cons_self _ _)

theorem repair_core (now : String) (tasks : List Task) (done : List Asset) (a' : Asset)
    (hdone : ∀ a ∈ done, RepairedOk tasks a) :
    ∀ a ∈ (repairApply now (tasks, done) a').2, RepairedOk (repairApply now (tasks, done) a').1 a := by
  intro a ha
  have hreg : ∀ t, (registerAssetId a'.asset_id t).task_id = t.task_id :=
    registerAssetId_task_id _
  rcases List.mem_append.mp ha with hmem | hmem2
  · obtain ⟨t, hlw, hids⟩ := hdone a hmem
    by_cases hcase : a.task_id = a'.task_id
    · have h1 : lastWith (ensureTask tasks a'.task_id now) a'.task_id = some t := by
        rw [lastWith_ensureTask, ← hcase, hlw]
      have h2 : lastWith (repairApply now (tasks, done) a').1 a'.task_id =
          some (registerAssetId a'.asset_id t) := by
        show lastWith (updateLast _ _ _) _ = _
        rw [lastWith_updateLast_self _ _ _ hreg, h1]
        rfl
      refine ⟨registerAssetId a'.asset_id t, ?_, ?_⟩
      · rw [hcase]; exact h2
      · exact fun hne => mem_registerAssetId_of_mem _ _ (hids hne)
    · have hne' : a'.task_id ≠ a.task_id := fun he => hcase he.symm
      have h1 : lastWith (ensureTask tasks a'.task_id now) a.task_id = some t := by
        rw [lastWith_ensureTask_other _ _ _ _ hne']
        exact hlw
      have h2 : lastWith (repairApply now (tasks, done) a').1 a.task_id = some t := by
        show lastWith (updateLast _ _ _) _ = _
        rw [lastWith_updateLast_other _ _ _ hne' _ hreg]
        exact h1
      exact ⟨t, h2, hids⟩
  · have haeq : a = a' := by simpa using hmem2
    subst haeq
    have h1 : ∃ t0, lastWith (ensureTask tasks a.task_id now) a.task_id = some t0 := by
      rw [lastWith_ensureTask]
      cases lastWith tasks a.task_id with
      | some t => exact ⟨t, rfl⟩
      | none => exact ⟨_, rfl⟩
    obtain ⟨t0, ht0⟩ := h1
    have h2 : lastWith (repairApply now (tasks, done) a).1 a.task_id =
        some (registerAssetId a.asset_id t0) := by
      show lastWith (updateLast _ _ _) _ = _
      rw [lastWith_updateLast_self _ _ _ hreg, ht0]
      rfl
    exact ⟨_, h2, fun hne => self_mem_registerAssetId hne t0⟩

theorem repairStep_inv (now : String) (acc : List Task × List Asset) (a0 : Asset)
    (hdone : ∀ a ∈ acc.2, RepairedOk acc.1 a) :
    ∀ a ∈ (repairStep now acc a0).2, RepairedOk (repairStep now acc a0).1 a := by
  obtain ⟨tasks, done⟩ := acc
  exact repair_core now tasks done _ hdone

theorem repair_fold_inv (now : String) :
    ∀ (rest : List Asset) (acc : List Task × List Asset),
      (∀ a ∈ acc.2, RepairedOk acc.1 a) →
      ∀ a ∈ (rest.foldl (repairStep now) acc).2,
        RepairedOk (rest.foldl (repairStep now) acc).1 a
  | [], acc, hdone => hdone
  | a0 :: rest, acc, hdone => by
    rw [List.foldl_cons]
    exact repair_fold_inv now rest _ (repairStep_inv now acc a0 hdone)

theorem repair_invariant_aux (c : Contract) (now : String) :
    ∀ a ∈ (repairContract c now).assets, RepairedOk (repairContract c now).tasks a := by
  intro a ha
  exact repair_fold_inv now c.assets (c.tasks, []) (by intro x hx; cases hx) a ha

/-! ## C8 — the repaired task-reference invariant -/

/-- C8 (amended): after the engine's repair step every asset's `task_id`
references a task present in the document — synthesized as a placeholder
when the referenced task was missing or the `task_id` empty, never failing
the operation — and, for every asset whose id is non-empty, that task's
`asset_ids` list contains the asset's id.  (An asset with an empty id is
deliberately not registered in any `asset_ids` list.) -/
theorem c8_repair_invariant (c : Contract) (now : String) :
    ∀ a ∈ (repairContract c now).assets,
      ∃ t ∈ (repairContract c now).tasks, t.task_id = a.task_id ∧
        (a.asset_id ≠ "" → a.asset_id ∈ t.asset_ids) := by
  intro a ha
  obtain ⟨t, hlw, hmem⟩ := repair_invariant_aux c now a ha
  obtain ⟨htmem, htid⟩ := lastWith_mem hlw
  exact ⟨t, htmem, htid, hmem⟩

/-- Witness for `c8_repair_invariant`: a concrete document whose only task
is synthesized by the repair pass. -/
theorem c8_repair_invariant_witness :
    (inputNoLoc ∈ (repairContract preflightDoc "n").assets) ∧
    (∃ t ∈ (repairContract preflightDoc "n").tasks, t.task_id = inputNoLoc.task_id ∧
      (inputNoLoc.asset_id ≠ "" → inputNoLoc.asset_id ∈ t.asset_ids)) :=
  ⟨by decide, c8_repair_invariant preflightDoc "n" inputNoLoc (by decide)⟩

/-- C8, as stated, fails on an asset with an empty id: its placeholder task
is synthesized, but no task's `asset_ids` contains the asset's (empty) id. -/
theorem c8_counterexample :
    (repairContract docEmptyAid "n").assets.map Asset.asset_id = [""] ∧
    (∀ t ∈ (repairContract docEmptyAid "n").tasks, "" ∉ t.asset_ids) := by
  decide

/-! ## The finalize command's success path -/

theorem cmdFinalize_ok_elim {env : Env} {args : FinalizeArgs} {c : Contract} {now : String}
    {out : FinalizeOut} (h : cmdFinalize env args c now = Except.ok out) :
    ∃ extra, verificationExtra env args = Except.ok extra ∧
      out = cmdFinalizeWith env args c now extra := by
  unfold cmdFinalize at h
  cases hv : verificationExtra env args with
  | error e =>
    rw [hv] at h
    exact absurd h (by simp)
  | ok extra =>
    rw [hv] at h
    injection h with h
    exact ⟨extra, rfl, h.symm⟩

theorem cmdFinalize_ok_of_extra {env : Env} {args : FinalizeArgs} (c : Contract) (now : String)
    {extra : List (String × Json)} (h : verificationExtra env args = Except.ok extra) :
    cmdFinalize env args c now = Except.ok (cmdFinalizeWith env args c now extra) := by
  unfold cmdFinalize
  rw [h]

theorem verificationExtra_no_file {env : Env} {args : FinalizeArgs}
    (h : strOf args.verification_json_file = "") :
    verificationExtra env args = Except.ok [] := by
  unfold verificationExtra
  rw [h]
  rfl

theorem verificationGet_nil (key : String) (computed : List String) :
    verificationGet [] key computed = !(sortedDedup computed).isEmpty := rfl

/-! ## C1 — status recomputation priority -/

/-- C1 (amended): on every finalize pass each asset's status is recomputed
through the strict §4.2 priority — explicit error dominates
declared-and-absent dominates corrupt dominates present dominates
declared-and-unknown dominates produced/expected — while a preflight pass
recomputes only input assets' statuses, and from the existence tri-state
alone (`ok` / `missing` / `unknown`), ignoring errors and corruption.
(Finalize facts are stated of any run the command completes — one whose
`--verification-json-file` step, if requested, does not raise.) -/
theorem c1_finalize_priority :
    (∀ (env : Env) (args : FinalizeArgs) (c : Contract) (now : String)
        (out : FinalizeOut), cmdFinalize env args c now = Except.ok out →
        out.contract.assets =
          (repairContract c now).assets.map
            (finalizeAsset env (parseBool args.audit_corruption true))) ∧
    (∀ (env : Env) (audit : Bool) (a : Asset),
        (finalizeAsset env audit a).status =
          finalizeAssetStatus a (assetExists env a).1
            (auditCorrupt env audit a (assetExists env a).1).1) ∧
    (∀ (a : Asset) (ex co : Option Bool),
        (errTruthy a.error = true → finalizeAssetStatus a ex co = "failed") ∧
        (errTruthy a.error = false → ex = some false → hasLocation a = true →
          finalizeAssetStatus a ex co = "missing") ∧
        (errTruthy a.error = false → (ex == some false && hasLocation a) = false →
          co = some true → finalizeAssetStatus a ex co = "corrupt") ∧
        (errTruthy a.error = false → (co == some true) = false → ex = some true →
          finalizeAssetStatus a ex co = "ok") ∧
        (errTruthy a.error = false → (co == some true) = false → ex = none →
          hasLocation a = true → finalizeAssetStatus a ex co = "unknown") ∧
        (errTruthy a.error = false → (ex == some false && hasLocation a) = false →
          (co == some true) = false → (ex == some true) = false →
          (ex == none && hasLocation a) = false →
          finalizeAssetStatus a ex co = (if a.produced then "produced" else "expected"))) ∧
    (∀ (env : Env) (c : Contract) (strict : Bool),
        (cmdPreflight env c strict).contract.assets =
          c.assets.map (fun a => if a.role == "input" then preflightAsset env a else a)) ∧
    (∀ (env : Env) (a : Asset),
        (preflightAsset env a).status =
          (match (assetExists env a).1 with
           | some true => "ok"
           | some false => "missing"
           | none => "unknown")) := by
  refine ⟨?_, fun env audit a => rfl, ?_, fun env c strict => rfl, ?_⟩
  · intro env args c now out h
    obtain ⟨extra, hv, rfl⟩ := cmdFinalize_ok_elim h
    rfl
  · intro a ex co
    refine ⟨?_, ?_, ?_, ?_, ?_, ?_⟩
    · intro h1
      simp [finalizeAssetStatus, h1]
    · intro h1 h2 h3
      simp [finalizeAssetStatus, h1, h2, h3]
    · intro h1 h2 h3
      simp [finalizeAssetStatus, h1, h2, h3]
    · intro h1 h2 h3
      simp [finalizeAssetStatus, h1, h2, h3]
    · intro h1 h2 h3 h4
      simp [finalizeAssetStatus, h1, h2, h3, h4]
    · intro h1 h2 h3 h4 h5
      simp only [finalizeAssetStatus, h1, h2, h3, h4, h5]
      simp
  · intro env a
    unfold preflightAsset
    cases h : (assetExists env a).1 with
    | none => simp [h]
    | some b => cases b <;> simp [h]

/-- Witness for `c1_finalize_priority`: the finalize recomputation equation
at a concrete document, and the error clause of the priority at a concrete
asset. -/
theorem c1_finalize_priority_witness :
    ((cmdFinalizeWith envNone {} preflightDoc "n" []).contract.assets =
      (repairContract preflightDoc "n").assets.map (finalizeAsset envNone true)) ∧
    errTruthy errX.error = true ∧ finalizeAssetStatus errX none none = "failed" :=
  ⟨c1_finalize_priority.1 envNone {} preflightDoc "n" _ rfl, by decide,
    (c1_finalize_priority.2.2.1 errX none none).1 (by decide)⟩

/-- C1, as stated, is false for preflight: a required input asset with no
location resolves to existence `unknown` and preflight then writes status
`unknown`, while the §4.2 priority (no error, no location declared, not
produced) prescribes `expected`. -/
theorem c1_counterexample :
    ((cmdPreflight envNone preflightDoc false).contract.assets.map Asset.status = ["unknown"]) ∧
    finalizeAssetStatus inputNoLoc none none = "expected" ∧
    ("unknown" : String) ≠ "expected" := by
  decide

/-! ## C5 — folder partitioning -/

theorem map_fst_update_group (groups : List (String × List Asset)) (f0 : String) (a0 : Asset) :
    (groups.map (fun p => if p.1 == f0 then (p.1, p.2 ++ [a0]) else p)).map Prod.fst =
      groups.map Prod.fst := by
  induction groups with
  | nil => rfl
  | cons g gs ih =>
    simp only [List.map_cons]
    rw [ih]
    by_cases hg : (g.1 == f0) = true
    · rw [if_pos hg]
    · rw [if_neg hg]

theorem addToGroup_ok {groups : List (String × List Asset)} {seen : List Asset}
    (hinv : GroupsOk groups seen) {a0 : Asset} {f0 : String}
    (hf : gcsFolder a0 = some f0) : GroupsOk (addToGroup groups f0 a0) (seen ++ [a0]) := by
  obtain ⟨hkeys, hin, hcov⟩ := hinv
  unfold addToGroup
  by_cases hany : groups.any (fun p => p.1 == f0) = true
  · rw [if_pos hany]
    refine ⟨?_, ?_, ?_⟩
    · rw [map_fst_update_group]
      exact hkeys
    · intro g hg a ha
      rcases List.mem_map.mp hg with ⟨p, hp, hpe⟩
      by_cases hpf : (p.1 == f0) = true
      · rw [if_pos hpf] at hpe
        rw [← hpe] at ha ⊢
        rcases List.mem_append.mp ha with h1 | h1
        · obtain ⟨hfold, hseen⟩ := hin p hp a h1
          exact ⟨hfold, List.mem_append_left _ hseen⟩
        · have haa : a = a0 := by simpa using h1
          subst haa
          have hp1 : p.1 = f0 := by simpa using hpf
          exact ⟨by rw [hf, hp1], List.mem_append_right _ (List.mem_cons_self _ _)⟩
      · rw [if_neg hpf] at hpe
        rw [← hpe] at ha ⊢
        obtain ⟨hfold, hseen⟩ := hin p hp a ha
        exact ⟨hfold, List.mem_append_left _ hseen⟩
    · intro a ha f hfa
      rcases List.mem_append.mp ha with h1 | h1
      · obtain ⟨g, hg, hgf, hag⟩ := hcov a h1 f hfa
        refine ⟨if g.1 == f0 then (g.1, g.2 ++ [a0]) else g, List.mem_map_of_mem _ hg, ?_, ?_⟩
        · by_cases hgf0 : (g.1 == f0) = true
          · rw [if_pos hgf0]
            exact hgf
          · rw [if_neg hgf0]
            exact hgf
        · by_cases hgf0 : (g.1 == f0) = true
          · rw [if_pos hgf0]
            exact List.mem_append_left _ hag
          · rw [if_neg hgf0]
            exact hag
      · have haa : a = a0 := by simpa using h1
        subst haa
        have hff : f = f0 := by
          rw [hfa] at hf
          exact (Option.some.injEq _ _ ▸ hf)
        obtain ⟨p, hp, hpf⟩ := List.any_eq_true.mp hany
        refine ⟨(p.1, p.2 ++ [a]), ?_, ?_, ?_⟩
        · have he : (if p.1 == f0 then (p.1, p.2 ++ [a]) else p) = (p.1, p.2 ++ [a]) :=
            if_pos hpf
          rw [← he]
          exact List.mem_map_of_mem _ hp
        · have hp1 : p.1 = f0 := by simpa using hpf
          rw [hff, hp1]
        · exact List.mem_append_right _ (List.mem_cons_self _ _)
  · rw [if_neg hany]
    have hf0 : f0 ∉ groups.map Prod.fst := by
      intro hmem
      rcases List.mem_map.mp hmem with ⟨p, hp, hpe⟩
      exact hany (List.any_eq_true.mpr ⟨p, hp, by simp [hpe]⟩)
    refine ⟨?_, ?_, ?_⟩
    · rw [List.map_append]
      rw [List.nodup_append]
      exact ⟨hkeys, List.nodup_singleton _, by simpa using hf0⟩
    · intro g hg a ha
      rcases List.mem_append.mp hg with h1 | h1
      · obtain ⟨hfold, hseen⟩ := hin g h1 a ha
        exact ⟨hfold, List.mem_append_left _ hseen⟩
      · have hgg : g = (f0, [a0]) := by simpa using h1
        subst hgg
        have haa : a = a0 := by simpa using ha
        subst haa
        exact ⟨hf, List.mem_append_right _ (List.mem_cons_self _ _)⟩
    · intro a ha f hfa
      rcases List.mem_append.mp ha with h1 | h1
      · obtain ⟨g, hg, hgf, hag⟩ := hcov a h1 f hfa
        exact ⟨g, List.mem_append_left _ hg, hgf, hag⟩
      · have haa : a = a0 := by simpa using h1
        subst haa
        have hff : f = f0 := by
          rw [hfa] at hf
          exact (Option.some.injEq _ _ ▸ hf)
        exact ⟨(f0, [a]), List.mem_append_right _ (List.mem_cons_self _ _), hff.symm,
          List.mem_cons_self _ _⟩

theorem groupsOk_skip {groups : List (String × List Asset)} {seen : List Asset}
    (hinv : GroupsOk groups seen) {a0 : Asset} (hf : gcsFolder a0 = none) :
    GroupsOk groups (seen ++ [a0]) := by
  obtain ⟨hkeys, hin, hcov⟩ := hinv
  refine ⟨hkeys, ?_, ?_⟩
  · intro g hg a ha
    obtain ⟨hfold, hseen⟩ := hin g hg a ha
    exact ⟨hfold, List.mem_append_left _ hseen⟩
  · intro a ha f hfa
    rcases List.mem_append.mp ha with h1 | h1
    · exact hcov a h1 f hfa
    · have haa : a = a0 := by simpa using h1
      subst haa
      rw [hf] at hfa
      cases hfa

theorem groupAssetsByFolder_ok (assets : List Asset) :
    GroupsOk (groupAssetsByFolder assets) assets := by
  suffices h : ∀ (rest : List Asset) (groups : List (String × List Asset)) (seen : List Asset),
      GroupsOk groups seen →
      GroupsOk (rest.foldl (fun gs a =>
        match gcsFolder a with
        | some f => addToGroup gs f a
        | none => gs) groups) (seen ++ rest) by
    have h0 : GroupsOk [] [] := by
      refine ⟨List.nodup_nil, ?_, ?_⟩
      · intro g hg
        cases hg
      · intro a ha
        cases ha
    simpa using h assets [] [] h0
  intro rest
  induction rest with
  | nil =>
    intro groups seen h
    simpa using h
  | cons a0 rest ih =>
    intro groups seen h
    rw [List.foldl_cons]
    have h1 : GroupsOk (match gcsFolder a0 with
        | some f => addToGroup groups f a0
        | none => groups) (seen ++ [a0]) := by
      cases hf : gcsFolder a0 with
      | some f0 => exact addToGroup_ok h hf
      | none => exact groupsOk_skip h hf
    have h2 := ih _ _ h1
    rwa [List.append_assoc, List.singleton_append] at h2

/-- C5 (amended): the per-folder grouping is a partition of exactly the
assets for which a folder is derivable: an asset is in the group keyed `f`
precisely when `_gcs_folder` derives `f` for it, groups with different keys
are disjoint, and an asset with no object-storage destination (in particular
a local-only asset) derives no folder and so is in no group.  (An
object-storage-destined asset whose URI has no object path below the bucket,
or whose glob's fixed prefix does not extend below the bucket, also derives
no folder and is excluded — this is where the claim as stated fails.) -/
theorem c5_folder_partition :
    (∀ (assets : List Asset) (f : String) (a : Asset),
        (∃ g ∈ groupAssetsByFolder assets, g.1 = f ∧ a ∈ g.2) ↔
          (a ∈ assets ∧ gcsFolder a = some f)) ∧
    (∀ (assets : List Asset), ∀ g1 ∈ groupAssetsByFolder assets,
        ∀ g2 ∈ groupAssetsByFolder assets, g1.1 ≠ g2.1 → ∀ a ∈ g1.2, a ∉ g2.2) ∧
    (∀ a : Asset, specObjectStorageDestined a = false → gcsFolder a = none) := by
  refine ⟨?_, ?_, ?_⟩
  · intro assets f a
    obtain ⟨hkeys, hin, hcov⟩ := groupAssetsByFolder_ok assets
    constructor
    · rintro ⟨g, hg, hgf, hag⟩
      obtain ⟨hfold, hseen⟩ := hin g hg a hag
      exact ⟨hseen, by rw [hfold, hgf]⟩
    · rintro ⟨hmem, hfold⟩
      obtain ⟨g, hg, hgf, hag⟩ := hcov a hmem f hfold
      exact ⟨g, hg, hgf, hag⟩
  · intro assets g1 hg1 g2 hg2 hne a ha1 ha2
    obtain ⟨hkeys, hin, hcov⟩ := groupAssetsByFolder_ok assets
    have h1 := (hin g1 hg1 a ha1).1
    have h2 := (hin g2 hg2 a ha2).1
    rw [h1] at h2
    exact hne (Option.some.injEq _ _ ▸ h2)
  · intro a h
    rw [specObjectStorageDestined, Bool.or_eq_false_iff] at h
    unfold gcsFolder
    rw [if_neg (by simp [h.1]), if_neg (by simp [h.2])]

/-- Witness for `c5_folder_partition`: a concrete asset landing in its
derived folder group. -/
theorem c5_folder_partition_witness :
    ∃ g ∈ groupAssetsByFolder [folderAssetW], g.1 = "gs://bucket" ∧ folderAssetW ∈ g.2 :=
  (c5_folder_partition.1 [folderAssetW] "gs://bucket" folderAssetW).mpr
    ⟨by decide, by decide⟩

/-- C5, as stated, is false: a bare-bucket URI asset is
object-storage-destined, yet the partitioner places it in no folder group,
so the union of the groups misses it. -/
theorem c5_counterexample :
    specObjectStorageDestined bucketAsset = true ∧
    groupAssetsByFolder [bucketAsset] = [] := by
  decide

/-! ## C6 — object-storage glob existence -/

theorem lsLine_eq_some_iff (line u : String) :
    (if trimStr line == "" || !startsWithStr "gs://" (trimStr line) then none
     else if endsWithStr "/" (trimStr line) then none
     else some (normalizeGsUri (trimStr line))) = some u ↔
    (trimStr line ≠ "" ∧ startsWithStr "gs://" (trimStr line) = true ∧
     endsWithStr "/" (trimStr line) = false ∧ u = normalizeGsUri (trimStr line)) := by
  by_cases h1 : (trimStr line == "" || !startsWithStr "gs://" (trimStr line)) = true
  · rw [if_pos h1]
    rw [Bool.or_eq_true, beq_iff_eq, Bool.not_eq_true'] at h1
    constructor
    · intro h
      cases h
    · rintro ⟨hne, hsw, -, -⟩
      rcases h1 with h1 | h1
      · exact absurd h1 hne
      · rw [hsw] at h1
        cases h1
  · rw [if_neg h1]
    rw [Bool.or_eq_true, beq_iff_eq, Bool.not_eq_true'] at h1
    push_neg at h1
    obtain ⟨hne, hsw⟩ := h1
    have hsw' : startsWithStr "gs://" (trimStr line) = true := by
      cases hvv : startsWithStr "gs://" (trimStr line) with
      | true => rfl
      | false => exact absurd hvv hsw
    by_cases h2 : endsWithStr "/" (trimStr line) = true
    · rw [if_pos h2]
      constructor
      · intro h
        cases h
      · rintro ⟨-, -, hend, -⟩
        rw [h2] at hend
        cases hend
    · rw [if_neg h2]
      have h2' : endsWithStr "/" (trimStr line) = false := by
        cases hvv : endsWithStr "/" (trimStr line) with
        | true => exact absurd hvv h2
        | false => rfl
      simp only [Option.some.injEq]
      constructor
      · intro h
        exact ⟨hne, hsw', h2', h.symm⟩
      · rintro ⟨-, -, -, rfl⟩
        rfl

/-- C6: for an asset whose only declared location is an object-storage
glob, the existence check distinguishes outcomes: an unavailable backend is
`unknown` with reason `gsutil_unavailable`; a failing listing whose stderr
says "matched no objects" is `exists = false` with reason `gcs_glob`; any
other failing listing is `unknown` with a reason embedding the backend
error; a successful listing yields existence iff the matched set is
non-empty, with the matched locations sorted, duplicate-free, directory
entries excluded, and every entry the canonical form of a listed line.
An asset with no location at all resolves to `unknown` / `no_location`. -/
theorem c6_gcs_glob_existence :
    (∀ (env : Env) (a : Asset),
      strOf a.local_path = "" → strOf a.uri = "" → strOf a.local_glob = "" →
      strOf a.gcs_glob ≠ "" →
      ((env.gsutilAvailable = false →
          assetExists env a = (none, "gsutil_unavailable", [])) ∧
       (env.gsutilAvailable = true →
          (env.gsutilLs (strOf a.gcs_glob)).returncode ≠ 0 →
          containsSub "matched no objects"
              (lowerStr (replaceNewlines (trimStr (env.gsutilLs (strOf a.gcs_glob)).stderr))) =
            true →
          assetExists env a = (some false, "gcs_glob", [])) ∧
       (env.gsutilAvailable = true →
          (env.gsutilLs (strOf a.gcs_glob)).returncode ≠ 0 →
          containsSub "matched no objects"
              (lowerStr (replaceNewlines (trimStr (env.gsutilLs (strOf a.gcs_glob)).stderr))) =
            false →
          assetExists env a =
            (none,
             "gsutil_ls_failed:" ++
               (if replaceNewlines (trimStr (env.gsutilLs (strOf a.gcs_glob)).stderr) == "" then
                  toString (env.gsutilLs (strOf a.gcs_glob)).returncode
                else replaceNewlines (trimStr (env.gsutilLs (strOf a.gcs_glob)).stderr)),
             [])) ∧
       (env.gsutilAvailable = true →
          (env.gsutilLs (strOf a.gcs_glob)).returncode = 0 →
          (assetExists env a).1 = some (!(assetExists env a).2.2.isEmpty) ∧
          (assetExists env a).2.1 = "gcs_glob" ∧
          ((assetExists env a).2.2).Sorted StrLe ∧
          ((assetExists env a).2.2).Nodup ∧
          (∀ u, u ∈ (assetExists env a).2.2 ↔
            ∃ line ∈ (env.gsutilLs (strOf a.gcs_glob)).stdoutLines,
              trimStr line ≠ "" ∧ startsWithStr "gs://" (trimStr line) = true ∧
              endsWithStr "/" (trimStr line) = false ∧
              u = normalizeGsUri (trimStr line))))) ∧
    (∀ (env : Env) (a : Asset), hasLocation a = false →
        assetExists env a = (none, "no_location", [])) := by
  constructor
  · intro env a hlp huri hlg hgg
    have hb : assetExists env a =
        (match gsutilLsFn env (strOf a.gcs_glob) with
         | (none, reason) => (none, reason, [])
         | (some ms, reason) => (some (!ms.isEmpty), reason, ms)) := by
      unfold assetExists
      rw [if_neg (by simp [hlp]), if_neg (by simp [huri]), if_neg (by simp [hlg]),
        if_pos (by simp [hgg])]
    refine ⟨?_, ?_, ?_, ?_⟩
    · intro hav
      have hls : gsutilLsFn env (strOf a.gcs_glob) = (none, "gsutil_unavailable") := by
        unfold gsutilLsFn
        rw [if_pos (by simp [hav])]
      rw [hb, hls]
    · intro hav hrc hsub
      have hls : gsutilLsFn env (strOf a.gcs_glob) = (some [], "gcs_glob") := by
        unfold gsutilLsFn
        rw [if_neg (by simp [hav]), if_pos (by simp [hrc]), if_pos hsub]
      rw [hb, hls]
      rfl
    · intro hav hrc hsub
      have hls : gsutilLsFn env (strOf a.gcs_glob) =
          (none,
           "gsutil_ls_failed:" ++
             (if replaceNewlines (trimStr (env.gsutilLs (strOf a.gcs_glob)).stderr) == "" then
                toString (env.gsutilLs (strOf a.gcs_glob)).returncode
              else replaceNewlines (trimStr (env.gsutilLs (strOf a.gcs_glob)).stderr))) := by
        unfold gsutilLsFn
        rw [if_neg (by simp [hav]), if_pos (by simp [hrc]), if_neg (by simp [hsub])]
      rw [hb, hls]
    · intro hav hrc
      set out := (env.gsutilLs (strOf a.gcs_glob)).stdoutLines.filterMap
        (fun line =>
          if trimStr line == "" || !startsWithStr "gs://" (trimStr line) then none
          else if endsWithStr "/" (trimStr line) then none
          else some (normalizeGsUri (trimStr line))) with hout
      have hls : gsutilLsFn env (strOf a.gcs_glob) = (some (sortedDedup out), "gcs_glob") := by
        rw [hout]
        unfold gsutilLsFn
        rw [if_neg (by simp [hav]), if_neg (by simp [hrc])]
      have hfull : assetExists env a =
          (some (!(sortedDedup out).isEmpty), "gcs_glob", sortedDedup out) := by
        rw [hb, hls]
      rw [hfull]
      refine ⟨rfl, rfl, sortedDedup_sorted _, sortedDedup_nodup _, ?_⟩
      intro u
      show u ∈ sortedDedup out ↔ _
      rw [mem_sortedDedup, hout, List.mem_filterMap]
      constructor
      · rintro ⟨line, hline, hfl⟩
        exact ⟨line, hline, (lsLine_eq_some_iff line u).mp hfl⟩
      · rintro ⟨line, hline, hprops⟩
        exact ⟨line, hline, (lsLine_eq_some_iff line u).mpr hprops⟩
  · intro env a h
    unfold hasLocation at h
    rw [Bool.or_eq_false_iff, Bool.or_eq_false_iff, Bool.or_eq_false_iff] at h
    obtain ⟨⟨⟨h1, h2⟩, h3⟩, h4⟩ := h
    unfold assetExists
    rw [if_neg (by simp [h2]), if_neg (by simp [h1]), if_neg (by simp [h3]),
      if_neg (by simp [h4])]

/-- Witness for `c6_gcs_glob_existence`: the unavailable-backend branch at a
concrete glob-only asset. -/
theorem c6_gcs_glob_existence_witness :
    strOf globAsset.gcs_glob ≠ "" ∧
    assetExists envNone globAsset = (none, "gsutil_unavailable", []) :=
  ⟨by decide,
    (c6_gcs_glob_existence.1 envNone globAsset rfl rfl rfl (by decide)).1 rfl⟩

/-! ## C7 — corruption auditing -/

/-- C7: corruption auditing runs only when enabled, for `metadata`-kind
assets whose existence resolved to `true`; it derives `corrupt` from a
`corrupt` field, else as the negation of a `success` field; unreadable,
oversized (> 2 MB = 2,000,000 bytes) or non-object content leaves
`corrupt = none`.  Every branch of the auditor is a total function into
`Option Bool`, so no failure mode can abort the finalize pass. -/
theorem c7_corruption_audit :
    (∀ (env : Env) (audit : Bool) (a : Asset),
        (finalizeAsset env audit a).corrupt =
            (auditCorrupt env audit a (assetExists env a).1).1 ∧
        (finalizeAsset env audit a).corrupt_reason =
            (auditCorrupt env audit a (assetExists env a).1).2) ∧
    (∀ (env : Env) (audit : Bool) (a : Asset) (ex : Option Bool),
        (audit && ex == some true && a.kind == "metadata") = false →
        auditCorrupt env audit a ex = (none, none)) ∧
    (∀ (env : Env) (a : Asset) (fields : List (String × Json)) (v : Json),
        readJsonFromAsset env a = some (Json.obj fields) →
        fields.lookup "corrupt" = some v →
        auditCorrupt env true a (some true) =
          (if a.kind == "metadata" then (some v.truthy, some "metadata.corrupt")
           else (none, none))) ∧
    (∀ (env : Env) (a : Asset) (fields : List (String × Json)) (v : Json),
        readJsonFromAsset env a = some (Json.obj fields) →
        fields.lookup "corrupt" = none → fields.lookup "success" = some v →
        auditCorrupt env true a (some true) =
          (if a.kind == "metadata" then (some (!v.truthy), some "metadata.success")
           else (none, none))) ∧
    (∀ (env : Env) (audit : Bool) (a : Asset) (ex : Option Bool),
        readJsonFromAsset env a = none → auditCorrupt env audit a ex = (none, none)) ∧
    (∀ (env : Env) (audit : Bool) (a : Asset) (ex : Option Bool) (xs : List Json),
        readJsonFromAsset env a = some (Json.arr xs) →
        auditCorrupt env audit a ex = (none, none)) ∧
    (∀ (env : Env) (a : Asset),
        strOf a.local_path ≠ "" → (env.localFile (strOf a.local_path)).size > 2000000 →
        readJsonFromAsset env a = none) ∧
    (∀ (env : Env) (a : Asset) (size : Nat) (js : Option Json),
        strOf a.local_path = "" → strOf a.uri ≠ "" →
        startsWithStr "gs://" (strOf a.uri) = true →
        env.gsutilCat (strOf a.uri) = some (size, js) → size > 2000000 →
        readJsonFromAsset env a = none) := by
  refine ⟨fun env audit a => ⟨rfl, rfl⟩, ?_, ?_, ?_, ?_, ?_, ?_, ?_⟩
  · intro env audit a ex h
    unfold auditCorrupt
    rw [if_neg (by simp [h])]
  · intro env a fields v hread hlook
    unfold auditCorrupt
    by_cases hk : (a.kind == "metadata") = true
    · rw [if_pos (by simp [hk]), if_pos hk, hread]
      show (match fields.lookup "corrupt" with
        | some v => (some v.truthy, some "metadata.corrupt")
        | none =>
          match fields.lookup "success" with
          | some v => (some (!v.truthy), some "metadata.success")
          | none => (none, none)) = _
      rw [hlook]
    · rw [if_neg (by simp [hk]), if_neg hk]
  · intro env a fields v hread hlook1 hlook2
    unfold auditCorrupt
    by_cases hk : (a.kind == "metadata") = true
    · rw [if_pos (by simp [hk]), if_pos hk, hread]
      show (match fields.lookup "corrupt" with
        | some v => (some v.truthy, some "metadata.corrupt")
        | none =>
          match fields.lookup "success" with
          | some v => (some (!v.truthy), some "metadata.success")
          | none => (none, none)) = _
      rw [hlook1]
      show (match fields.lookup "success" with
        | some v => (some (!v.truthy), some "metadata.success")
        | none => (none, none)) = _
      rw [hlook2]
    · rw [if_neg (by simp [hk]), if_neg hk]
  · intro env audit a ex hread
    unfold auditCorrupt
    by_cases hg : (audit && ex == some true && a.kind == "metadata") = true
    · rw [if_pos hg, hread]
    · rw [if_neg hg]
  · intro env audit a ex xs hread
    unfold auditCorrupt
    by_cases hg : (audit && ex == some true && a.kind == "metadata") = true
    · rw [if_pos hg, hread]
    · rw [if_neg hg]
  · intro env a hlp hsize
    unfold readJsonFromAsset
    rw [if_pos (by simp [hlp])]
    by_cases hex : (!(env.localFile (strOf a.local_path)).fileExists ||
        !(env.localFile (strOf a.local_path)).isFile) = true
    · rw [if_pos hex]
    · rw [if_neg hex, if_pos (by simpa using hsize)]
  · intro env a size js hlp huri hsw hcat hsize
    unfold readJsonFromAsset
    rw [if_neg (by simp [hlp]), if_pos (by simp [huri, hsw])]
    by_cases hav : env.gsutilAvailable = true
    · rw [if_neg (by simp [hav]), hcat]
      show (if size > 2000000 then none else js) = none
      rw [if_pos hsize]
    · rw [if_pos (by simp [Bool.eq_false_iff.mpr hav])]

/-- Witness for `c7_corruption_audit`: a metadata asset whose JSON carries
`"corrupt": true`. -/
theorem c7_corruption_audit_witness :
    readJsonFromAsset envMetaCorrupt metaAsset =
        some (Json.obj [("corrupt", Json.bool true)]) ∧
    auditCorrupt envMetaCorrupt true metaAsset (some true) =
      (if metaAsset.kind == "metadata" then
        (some (Json.bool true).truthy, some "metadata.corrupt")
       else (none, none)) :=
  ⟨rfl, c7_corruption_audit.2.2.1 envMetaCorrupt metaAsset
    [("corrupt", Json.bool true)] (Json.bool true) rfl rfl⟩

/-! ## C10 — location-descriptor precedence -/

/-- C10: the existence check consults descriptors in the fixed order local
path, `gs://` URI, local glob, object-storage glob; whichever comes first
alone determines the result (later descriptors can be changed freely); a
URI that does not start with `gs://` is skipped, so an asset whose only
location is such a URI resolves to `unknown` / `no_location`; and
record-produced never clears a stored location field. -/
theorem c10_location_precedence :
    (∀ (env : Env) (a : Asset) (u g gg : Option String),
        strOf a.local_path ≠ "" →
        assetExists env { a with uri := u, local_glob := g, gcs_glob := gg } =
          assetExists env a) ∧
    (∀ (env : Env) (a : Asset) (g gg : Option String),
        strOf a.local_path = "" → strOf a.uri ≠ "" →
        startsWithStr "gs://" (strOf a.uri) = true →
        assetExists env { a with local_glob := g, gcs_glob := gg } = assetExists env a) ∧
    (∀ (env : Env) (a : Asset) (gg : Option String),
        strOf a.local_path = "" →
        (strOf a.uri != "" && startsWithStr "gs://" (strOf a.uri)) = false →
        strOf a.local_glob ≠ "" →
        assetExists env { a with gcs_glob := gg } = assetExists env a) ∧
    (∀ (env : Env) (a : Asset),
        strOf a.local_path = "" → strOf a.uri ≠ "" →
        startsWithStr "gs://" (strOf a.uri) = false →
        strOf a.local_glob = "" → strOf a.gcs_glob = "" →
        assetExists env a = (none, "no_location", [])) ∧
    (∀ (args : RecordArgs) (tid : String) (a : Asset),
        (strOf args.uri = "" → (recordProducedUpdate args tid a).uri = a.uri) ∧
        (strOf args.local_path = "" →
          (recordProducedUpdate args tid a).local_path = a.local_path) ∧
        (strOf args.local_glob = "" →
          (recordProducedUpdate args tid a).local_glob = a.local_glob) ∧
        (strOf args.gcs_glob = "" →
          (recordProducedUpdate args tid a).gcs_glob = a.gcs_glob)) := by
  refine ⟨?_, ?_, ?_, ?_, ?_⟩
  · intro env a u g gg h
    have hb : (strOf a.local_path != "") = true := by simp [h]
    show (if (strOf a.local_path != "") = true then _ else _) = _
    rw [if_pos hb]
    unfold assetExists
    rw [if_pos hb]
  · intro env a g gg h1 h2 h3
    have hb1 : (strOf a.local_path != "") = false := by simp [h1]
    have hb2 : (strOf a.uri != "" && startsWithStr "gs://" (strOf a.uri)) = true := by
      simp [h2, h3]
    show (if (strOf a.local_path != "") = true then _ else _) = _
    rw [if_neg (by simp [hb1]), if_pos hb2]
    unfold assetExists
    rw [if_neg (by simp [hb1]), if_pos hb2]
  · intro env a gg h1 h2 h3
    have hb3 : (strOf a.local_glob != "") = true := by simp [h3]
    show (if (strOf a.local_path != "") = true then _ else _) = _
    rw [if_neg (by simp [h1]), if_neg (by simp [h2]), if_pos hb3]
    unfold assetExists
    rw [if_neg (by simp [h1]), if_neg (by simp [h2]), if_pos hb3]
  · intro env a h1 h2 h3 h4 h5
    unfold assetExists
    rw [if_neg (by simp [h1]), if_neg (by simp [h3]), if_neg (by simp [h4]),
      if_neg (by simp [h5])]
  · intro args tid a
    refine ⟨?_, ?_, ?_, ?_⟩ <;> intro h <;> simp [recordProducedUpdate, locOr, h]

/-- Witness for `c10_location_precedence`: the local path dominates all
later descriptors at a concrete asset. -/
theorem c10_location_precedence_witness :
    strOf reqX.local_path ≠ "" ∧
    assetExists envNone
        { reqX with
          uri := some "gs://b/x", local_glob := some "*", gcs_glob := some "gs://b/*" } =
      assetExists envNone reqX :=
  ⟨by decide,
    c10_location_precedence.1 envNone reqX (some "gs://b/x") (some "*") (some "gs://b/*")
      (by decide)⟩

/-! ## C2 — fast-fail propagation from a failed task -/

theorem finalizeAssetStatus_of_err {a : Asset} (h : errTruthy a.error = true)
    (ex co : Option Bool) : finalizeAssetStatus a ex co = "failed" := by
  simp [finalizeAssetStatus, h]

/-- C2 (amended): marking a task `failed` sets the status of every asset
currently listed in that task's `asset_ids` (under unique asset ids) to
`failed`, and copies the error record onto each when an error payload is
supplied; on a later finalize pass an asset keeps status `failed` — even
when its existence check alone resolves to `true` — exactly when it carries
a truthy (non-empty) error record.  With no payload (or an empty one),
nothing is copied and a completing finalize run recomputes the status from
ground truth. -/
theorem c2_failed_cascade :
    (∀ (c : Contract) (tid : String) (err : Option ErrorRec) (now : String),
        (c.assets.map Asset.asset_id).Nodup →
        ∀ t : Task,
          (setTaskStatus c tid "failed" err now).tasks.find? (fun u => u.task_id == tid) =
            some t →
        ∀ a ∈ (setTaskStatus c tid "failed" err now).assets, a.asset_id ∈ t.asset_ids →
          a.status = "failed" ∧ (err.isSome = true → a.error = err)) ∧
    (∀ (env : Env) (args : FinalizeArgs) (c : Contract) (now : String)
        (out : FinalizeOut), cmdFinalize env args c now = Except.ok out →
        ∀ a ∈ out.contract.assets,
          errTruthy a.error = true → a.status = "failed") := by
  constructor
  · intro c tid err now hnd t hfind a ha hin
    have hids : taskAssetIds (setTaskStatus c tid "failed" err now).tasks tid =
        t.asset_ids := by
      unfold taskAssetIds
      rw [hfind]
    have ha' : a ∈ failCascade err t.asset_ids c.assets := by
      rw [← hids]
      exact ha
    exact (foldl_updateLast_fail err t.asset_ids c.assets hnd a ha').1 hin
  · intro env args c now out hok a ha herr
    obtain ⟨extra, hv, rfl⟩ := cmdFinalize_ok_elim hok
    have ha' : a ∈ ((repairContract c now).assets.map
        (finalizeAsset env (parseBool args.audit_corruption true))) := ha
    rcases List.mem_map.mp ha' with ⟨b, hb, rfl⟩
    have herr' : errTruthy b.error = true := herr
    show finalizeAssetStatus b _ _ = "failed"
    exact finalizeAssetStatus_of_err herr' _ _

/-- Witness for `c2_failed_cascade`: a concrete one-task document marked
failed with a non-empty payload. -/
theorem c2_failed_cascade_witness :
    (docC2.assets.map Asset.asset_id).Nodup ∧
    (assetAW.status = "failed" ∧
      ((some errW : Option ErrorRec).isSome = true → assetAW.error = some errW)) :=
  ⟨by decide,
    c2_failed_cascade.1 docC2 "t" (some errW) "n" (by decide) taskTW (by decide)
      assetAW (by decide) (by decide)⟩

/-- C2, as stated, is false for an absent error payload: the cascade sets
the asset `failed` but copies nothing, and the next finalize pass — seeing
no error and a positive existence check — recomputes the status to `ok`. -/
theorem c2_counterexample :
    ((setTaskStatus docC2 "t" "failed" none "n").assets.map Asset.status = ["failed"]) ∧
    ((cmdFinalize envTrue {} (setTaskStatus docC2 "t" "failed" none "n") "n2").toOption.map
        (fun out => out.contract.assets.map Asset.status) = some ["ok"]) ∧
    ("ok" : String) ≠ "failed" := by
  decide

/-! ## C3 — task-level rollup -/

theorem filterMap_congr_local {α β : Type} (f g : α → Option β) :
    ∀ l : List α, (∀ a ∈ l, f a = g a) → l.filterMap f = l.filterMap g
  | [], _ => rfl
  | x :: xs, h => by
    rw [List.filterMap_cons, List.filterMap_cons, h x (List.mem_cons_self _ _),
      filterMap_congr_local f g xs (fun a ha => h a (List.mem_cons_of_mem _ ha))]

theorem assetIndexFind_none_iff (l : List Asset) (k : String) :
    assetIndexFind l k = none ↔ ∀ a ∈ l, a.asset_id ≠ k := by
  rw [assetIndexFind_eq, List.find?_eq_none]
  constructor
  · intro h a ha
    simpa using h a (List.mem_reverse.mpr ha)
  · intro h a ha
    simpa using h a (List.mem_reverse.mp ha)

/-- C3 (amended): at finalize each task's final status is the rollup of its
prior status and the statuses of its required assets — prior `failed`
sticks; else any required `failed` / `missing` / `corrupt` / `unknown`
yields, in that order, `failed` and the three `succeeded_with_*` statuses;
else all-`ok` yields `succeeded`; a task with no required assets becomes
`succeeded` unless its prior status was non-trivial, which is preserved.
Provided asset ids are unique, unrequired assets never affect the rollup
(with a duplicated id an unrequired asset can shadow a required one in the
last-wins index — this is where the claim as stated fails).  Stated of any
finalize run the command completes. -/
theorem c3_task_rollup :
    (∀ (env : Env) (args : FinalizeArgs) (c : Contract) (now : String)
        (out : FinalizeOut), cmdFinalize env args c now = Except.ok out →
        out.contract.tasks =
          (repairContract c now).tasks.map (rollupTask out.contract.assets now)) ∧
    (∀ (assets : List Asset) (now : String) (t : Task),
        (rollupTask assets now t).status =
          taskRollupStatus t.status (requiredStatusesFor assets t)) ∧
    (∀ (existing : String) (ss : List String),
        (existing = "failed" → taskRollupStatus existing ss = "failed") ∧
        (existing ≠ "failed" → "failed" ∈ ss → taskRollupStatus existing ss = "failed") ∧
        (existing ≠ "failed" → "failed" ∉ ss → "missing" ∈ ss →
          taskRollupStatus existing ss = "succeeded_with_missing_outputs") ∧
        (existing ≠ "failed" → "failed" ∉ ss → "missing" ∉ ss → "corrupt" ∈ ss →
          taskRollupStatus existing ss = "succeeded_with_corrupt_outputs") ∧
        (existing ≠ "failed" → "failed" ∉ ss → "missing" ∉ ss → "corrupt" ∉ ss →
          "unknown" ∈ ss →
          taskRollupStatus existing ss = "succeeded_with_unverified_outputs") ∧
        (existing ≠ "failed" → ss ≠ [] → (∀ s ∈ ss, s = "ok") →
          taskRollupStatus existing ss = "succeeded") ∧
        (ss = [] →
          (existing = "" ∨ existing = "expected" ∨ existing = "running" ∨
            existing = "produced") →
          taskRollupStatus existing ss = "succeeded") ∧
        (ss = [] → existing ≠ "" → existing ≠ "expected" → existing ≠ "running" →
          existing ≠ "produced" → taskRollupStatus existing ss = existing)) ∧
    (∀ (assets : List Asset) (t : Task), (assets.map Asset.asset_id).Nodup →
        requiredStatusesFor assets t =
          requiredStatusesFor (assets.filter (fun a => a.required)) t) := by
  refine ⟨?_, fun assets now t => rfl, ?_, ?_⟩
  · intro env args c now out h
    obtain ⟨extra, hv, rfl⟩ := cmdFinalize_ok_elim h
    rfl
  · intro existing ss
    refine ⟨?_, ?_, ?_, ?_, ?_, ?_, ?_, ?_⟩
    · intro h
      simp [taskRollupStatus, h]
    · intro hne h
      have hnil : ss ≠ [] := List.ne_nil_of_mem h
      unfold taskRollupStatus
      rw [if_neg (by simp [hne]), if_pos (by simp [hnil]),
        if_pos (List.any_eq_true.mpr ⟨_, h, by simp⟩)]
    · intro hne h1 h2
      have hnil : ss ≠ [] := List.ne_nil_of_mem h2
      unfold taskRollupStatus
      rw [if_neg (by simp [hne]), if_pos (by simp [hnil]),
        if_neg (by simp [List.any_eq_true]; exact h1),
        if_pos (List.any_eq_true.mpr ⟨_, h2, by simp⟩)]
    · intro hne h1 h2 h3
      have hnil : ss ≠ [] := List.ne_nil_of_mem h3
      unfold taskRollupStatus
      rw [if_neg (by simp [hne]), if_pos (by simp [hnil]),
        if_neg (by simp [List.any_eq_true]; exact h1),
        if_neg (by simp [List.any_eq_true]; exact h2),
        if_pos (List.any_eq_true.mpr ⟨_, h3, by simp⟩)]
    · intro hne h1 h2 h3 h4
      have hnil : ss ≠ [] := List.ne_nil_of_mem h4
      unfold taskRollupStatus
      rw [if_neg (by simp [hne]), if_pos (by simp [hnil]),
        if_neg (by simp [List.any_eq_true]; exact h1),
        if_neg (by simp [List.any_eq_true]; exact h2),
        if_neg (by simp [List.any_eq_true]; exact h3),
        if_pos (List.any_eq_true.mpr ⟨_, h4, by simp⟩)]
    · intro hne hnil hall
      have hnotin : ∀ s : String, s ≠ "ok" → s ∉ ss := by
        intro s hs hmem
        exact hs (hall s hmem)
      unfold taskRollupStatus
      rw [if_neg (by simp [hne]), if_pos (by simp [hnil]),
        if_neg (by simp [List.any_eq_true]; exact hnotin "failed" (by decide)),
        if_neg (by simp [List.any_eq_true]; exact hnotin "missing" (by decide)),
        if_neg (by simp [List.any_eq_true]; exact hnotin "corrupt" (by decide)),
        if_neg (by simp [List.any_eq_true]; exact hnotin "unknown" (by decide)),
        if_pos (List.all_eq_true.mpr (fun x hx => by simp [hall x hx]))]
    · intro hnil hcase
      subst hnil
      unfold taskRollupStatus
      rcases hcase with h | h | h | h <;>
        rw [if_neg (by simp [h]), if_neg (by simp), if_pos (by simp [h])]
    · intro hnil h1 h2 h3 h4
      subst hnil
      unfold taskRollupStatus
      by_cases hfb : (existing == "failed") = true
      · rw [if_pos hfb]
        exact (beq_iff_eq.mp hfb).symm
      · rw [if_neg hfb, if_neg (by simp), if_neg (by simp [h1, h2, h3, h4]),
          if_neg (by simp [h1])]
  · intro assets t hnd
    unfold requiredStatusesFor
    congr 1
    apply filterMap_congr_local
    intro aid _
    cases hfind : assetIndexFind assets aid with
    | none =>
      have hnone : assetIndexFind (assets.filter (fun a => a.required)) aid = none := by
        rw [assetIndexFind_none_iff]
        intro b hb
        exact (assetIndexFind_none_iff assets aid).mp hfind b (List.mem_of_mem_filter hb)
      rw [hnone]
    | some b =>
      obtain ⟨hbmem, hbid⟩ := assetIndexFind_mem hfind
      by_cases hreq : b.required = true
      · have hbf : b ∈ assets.filter (fun a => a.required) :=
          List.mem_filter.mpr ⟨hbmem, by simp [hreq]⟩
        have hnd' : ((assets.filter (fun a => a.required)).map Asset.asset_id).Nodup :=
          ((List.filter_sublist _).map _).nodup hnd
        have heq : assetIndexFind (assets.filter (fun a => a.required)) aid = some b := by
          rw [← hbid]
          exact assetIndexFind_of_nodup hnd' hbf
        rw [heq]
      · have hnone : assetIndexFind (assets.filter (fun a => a.required)) aid = none := by
          rw [assetIndexFind_none_iff]
          intro x hx hxid
          obtain ⟨hxmem, hxreq⟩ := List.mem_filter.mp hx
          have hxb : x = b := nodup_id_inj hnd hxmem hbmem (by rw [hxid, hbid])
          rw [hxb] at hxreq
          exact hreq (by simpa using hxreq)
        rw [hnone]
        simp [Bool.eq_false_iff.mpr hreq]

/-- Witness for `c3_task_rollup`: the missing-clause of the rollup at a
concrete status list, and the rollup equation at a concrete task. -/
theorem c3_task_rollup_witness :
    ("missing" ∈ ["missing"]) ∧
    taskRollupStatus "running" ["missing"] = "succeeded_with_missing_outputs" :=
  ⟨by decide,
    (c3_task_rollup.2.2.1 "running" ["missing"]).2.2.1 (by decide) (by decide) (by decide)⟩

/-- C3, as stated, is false when an unrequired asset shares a required
asset's id: the last-wins index then resolves the task's required-asset
lookup to the unrequired shadow, changing the rollup. -/
theorem c3_counterexample :
    ((cmdFinalize envNone {} docShadow "n").toOption.map
        (fun out => out.contract.tasks.map Task.status) = some ["succeeded"]) ∧
    ((cmdFinalize envNone {} docPlain "n").toOption.map
        (fun out => out.contract.tasks.map Task.status) =
      some ["succeeded_with_missing_outputs"]) ∧
    ("succeeded" : String) ≠ "succeeded_with_missing_outputs" := by
  decide

/-! ## C4 — run-level rollup -/

theorem isSome_ite_some {α : Type} (c : Prop) [Decidable c] (x : α) :
    (if c then some x else none).isSome = true ↔ c := by
  by_cases h : c <;> simp [h]

theorem filterMap_ne_nil_iff {α β : Type} (f : α → Option β) (l : List α) :
    l.filterMap f ≠ [] ↔ ∃ a ∈ l, (f a).isSome = true := by
  constructor
  · intro h
    cases he : l.filterMap f with
    | nil => exact absurd he h
    | cons b bs =>
      have hb : b ∈ l.filterMap f := he ▸ List.mem_cons_self _ _
      rcases List.mem_filterMap.mp hb with ⟨a, ha, hfa⟩
      exact ⟨a, ha, by rw [hfa]; rfl⟩
  · rintro ⟨a, ha, hfa⟩ hnil
    rcases Option.isSome_iff_exists.mp hfa with ⟨b, hb⟩
    have hmem : b ∈ l.filterMap f := List.mem_filterMap.mpr ⟨a, ha, hb⟩
    rw [hnil] at hmem
    cases hmem

theorem filter_ne_nil_iff {α : Type} (p : α → Bool) (l : List α) :
    l.filter p ≠ [] ↔ ∃ a ∈ l, p a = true := by
  constructor
  · intro h
    cases he : l.filter p with
    | nil => exact absurd he h
    | cons b bs =>
      have hb : b ∈ l.filter p := he ▸ List.mem_cons_self _ _
      rcases List.mem_filter.mp hb with ⟨hbl, hbp⟩
      exact ⟨b, hbl, hbp⟩
  · rintro ⟨a, ha, hpa⟩ hnil
    have hmem : a ∈ l.filter p := List.mem_filter.mpr ⟨ha, hpa⟩
    rw [hnil] at hmem
    cases hmem

theorem runStatusOf_none_failed {ftc : Nat} {mr cr ur : List String} (h : ftc > 0) :
    runStatusOf none ftc mr cr ur = "FAILED" := by
  unfold runStatusOf
  rw [if_neg (by decide), if_pos h]

theorem runStatusOf_none_issues {ftc : Nat} {mr cr ur : List String} (h0 : ¬ftc > 0)
    (h1 : (!mr.isEmpty || !cr.isEmpty) = true) :
    runStatusOf none ftc mr cr ur = "FINISHED_WITH_ISSUES" := by
  unfold runStatusOf
  rw [if_neg (by decide), if_neg h0, if_pos h1]

theorem runStatusOf_none_unverified {ftc : Nat} {mr cr ur : List String} (h0 : ¬ftc > 0)
    (h1 : (!mr.isEmpty || !cr.isEmpty) = false) (h2 : (!ur.isEmpty) = true) :
    runStatusOf none ftc mr cr ur = "FINISHED_WITH_UNVERIFIED_OUTPUTS" := by
  unfold runStatusOf
  rw [if_neg (by decide), if_neg h0, if_neg (by simp [h1]), if_pos h2]

theorem runStatusOf_none_finished {ftc : Nat} {mr cr ur : List String} (h0 : ¬ftc > 0)
    (h1 : (!mr.isEmpty || !cr.isEmpty) = false) (h2 : (!ur.isEmpty) = false) :
    runStatusOf none ftc mr cr ur = "FINISHED" := by
  unfold runStatusOf
  rw [if_neg (by decide), if_neg h0, if_neg (by simp [h1]), if_neg (by simp [h2])]

theorem runStatusOf_override {ftc : Nat} {mr cr ur : List String} {s : String}
    (h1 : trimStr s = s) (h2 : s ≠ "") : runStatusOf (some s) ftc mr cr ur = s := by
  unfold runStatusOf
  rw [show strOf (some s) = s from rfl, h1, if_pos (by simp [h2])]

theorem cmdFinalizeWith_run_status_eq (env : Env) (args : FinalizeArgs) (c : Contract)
    (now : String) (extra : List (String × Json)) :
    (cmdFinalizeWith env args c now extra).contract.run_status =
      runStatusOf args.status (cmdFinalizeWith env args c now extra).failedTaskCount
        (cmdFinalizeWith env args c now extra).missing_required
        (cmdFinalizeWith env args c now extra).corrupt_required
        (cmdFinalizeWith env args c now extra).unknown_required := rfl

theorem cmdFinalizeWith_missing_required_ne_nil_iff (env : Env) (args : FinalizeArgs)
    (c : Contract) (now : String) (extra : List (String × Json)) :
    (cmdFinalizeWith env args c now extra).missing_required ≠ [] ↔
      ∃ a ∈ (cmdFinalizeWith env args c now extra).contract.assets,
        a.required = true ∧ (a.status = "missing" ∨ a.status = "failed") := by
  have he : (cmdFinalizeWith env args c now extra).missing_required =
      (cmdFinalizeWith env args c now extra).contract.assets.filterMap
        (fun a => if a.required && (a.status == "missing" || a.status == "failed")
          then some a.asset_id else none) := rfl
  rw [he, filterMap_ne_nil_iff]
  constructor
  · rintro ⟨a, ha, hsome⟩
    rw [isSome_ite_some] at hsome
    exact ⟨a, ha, by simpa using hsome⟩
  · rintro ⟨a, ha, hreq, hst⟩
    refine ⟨a, ha, ?_⟩
    rw [isSome_ite_some]
    rcases hst with h | h <;> simp [hreq, h]

theorem cmdFinalizeWith_corrupt_required_ne_nil_iff (env : Env) (args : FinalizeArgs)
    (c : Contract) (now : String) (extra : List (String × Json)) :
    (cmdFinalizeWith env args c now extra).corrupt_required ≠ [] ↔
      ∃ a ∈ (cmdFinalizeWith env args c now extra).contract.assets,
        a.required = true ∧ a.status = "corrupt" := by
  have he : (cmdFinalizeWith env args c now extra).corrupt_required =
      (cmdFinalizeWith env args c now extra).contract.assets.filterMap
        (fun a => if a.required && a.status == "corrupt" then some a.asset_id else none) :=
    rfl
  rw [he, filterMap_ne_nil_iff]
  constructor
  · rintro ⟨a, ha, hsome⟩
    rw [isSome_ite_some] at hsome
    exact ⟨a, ha, by simpa using hsome⟩
  · rintro ⟨a, ha, hreq, hst⟩
    refine ⟨a, ha, ?_⟩
    rw [isSome_ite_some]
    simp [hreq, hst]

theorem cmdFinalizeWith_unknown_required_ne_nil_iff (env : Env) (args : FinalizeArgs)
    (c : Contract) (now : String) (extra : List (String × Json)) :
    (cmdFinalizeWith env args c now extra).unknown_required ≠ [] ↔
      ∃ a ∈ (cmdFinalizeWith env args c now extra).contract.assets,
        a.required = true ∧ a.status = "unknown" := by
  have he : (cmdFinalizeWith env args c now extra).unknown_required =
      (cmdFinalizeWith env args c now extra).contract.assets.filterMap
        (fun a => if a.required && a.status == "unknown" then some a.asset_id else none) :=
    rfl
  rw [he, filterMap_ne_nil_iff]
  constructor
  · rintro ⟨a, ha, hsome⟩
    rw [isSome_ite_some] at hsome
    exact ⟨a, ha, by simpa using hsome⟩
  · rintro ⟨a, ha, hreq, hst⟩
    refine ⟨a, ha, ?_⟩
    rw [isSome_ite_some]
    simp [hreq, hst]

theorem cmdFinalizeWith_failed_count_pos_iff (env : Env) (args : FinalizeArgs) (c : Contract)
    (now : String) (extra : List (String × Json)) :
    (cmdFinalizeWith env args c now extra).failedTaskCount > 0 ↔
      ∃ t ∈ (cmdFinalizeWith env args c now extra).contract.tasks, t.status = "failed" := by
  have he : (cmdFinalizeWith env args c now extra).failedTaskCount =
      ((cmdFinalizeWith env args c now extra).contract.tasks.filter
        (fun t => t.status == "failed")).length := rfl
  rw [he, gt_iff_lt, List.length_pos, filter_ne_nil_iff]
  constructor <;> rintro ⟨t, ht, hp⟩ <;> exact ⟨t, ht, by simpa using hp⟩

theorem not_isEmpty_of_ne_nil {α : Type} {l : List α} (h : l ≠ []) : l.isEmpty = false := by
  cases l with
  | nil => exact absurd rfl h
  | cons x xs => rfl

theorem isEmpty_of_eq_nil {α : Type} {l : List α} (h : l = []) : l.isEmpty = true := by
  subst h
  rfl

/-- C4 (amended): at finalize, when the caller does not override the
status, the run status is computed in order: any task with final status
`failed` makes the run `FAILED`; else any required asset ending `missing`,
`failed` or `corrupt` makes it `FINISHED_WITH_ISSUES` (a required asset
that ends `failed` is folded into the missing-required list — under the
order exactly as the claim states it, such an asset alone would leave the
run `FINISHED`); else any required `unknown` makes it
`FINISHED_WITH_UNVERIFIED_OUTPUTS`; else `FINISHED`.  A non-empty stripped
caller-supplied status is stored instead.  Stated of any finalize run the
command completes; the verification merge never feeds the run status. -/
theorem c4_run_rollup :
    ∀ (env : Env) (args : FinalizeArgs) (c : Contract) (now : String) (out : FinalizeOut),
      cmdFinalize env args c now = Except.ok out →
      (args.status = none →
        (((∃ t ∈ out.contract.tasks, t.status = "failed") →
            out.contract.run_status = "FAILED") ∧
         ((∀ t ∈ out.contract.tasks, t.status ≠ "failed") →
          (∃ a ∈ out.contract.assets, a.required = true ∧
              (a.status = "missing" ∨ a.status = "failed" ∨ a.status = "corrupt")) →
            out.contract.run_status = "FINISHED_WITH_ISSUES") ∧
         ((∀ t ∈ out.contract.tasks, t.status ≠ "failed") →
          (∀ a ∈ out.contract.assets, a.required = true →
              a.status ≠ "missing" ∧ a.status ≠ "failed" ∧ a.status ≠ "corrupt") →
          (∃ a ∈ out.contract.assets, a.required = true ∧ a.status = "unknown") →
            out.contract.run_status = "FINISHED_WITH_UNVERIFIED_OUTPUTS") ∧
         ((∀ t ∈ out.contract.tasks, t.status ≠ "failed") →
          (∀ a ∈ out.contract.assets, a.required = true →
              a.status ≠ "missing" ∧ a.status ≠ "failed" ∧ a.status ≠ "corrupt" ∧
              a.status ≠ "unknown") →
            out.contract.run_status = "FINISHED"))) ∧
      (∀ s : String, args.status = some s → trimStr s = s → s ≠ "" →
        out.contract.run_status = s) := by
  intro env args c now out hout
  obtain ⟨extra, hv, rfl⟩ := cmdFinalize_ok_elim hout
  constructor
  · intro hnone
    refine ⟨?_, ?_, ?_, ?_⟩
    · intro hex
      rw [cmdFinalizeWith_run_status_eq, hnone]
      exact runStatusOf_none_failed
        ((cmdFinalizeWith_failed_count_pos_iff env args c now extra).mpr hex)
    · intro hall hex
      rw [cmdFinalizeWith_run_status_eq, hnone]
      have hftc : ¬(cmdFinalizeWith env args c now extra).failedTaskCount > 0 := by
        intro hgt
        obtain ⟨t, ht, hst⟩ := (cmdFinalizeWith_failed_count_pos_iff env args c now extra).mp hgt
        exact hall t ht hst
      apply runStatusOf_none_issues hftc
      rcases hex with ⟨a, ha, hreq, hst⟩
      rcases hst with h | h | h
      · have hne : (cmdFinalizeWith env args c now extra).missing_required ≠ [] :=
          (cmdFinalizeWith_missing_required_ne_nil_iff env args c now extra).mpr
            ⟨a, ha, hreq, Or.inl h⟩
        rw [not_isEmpty_of_ne_nil hne]
        rfl
      · have hne : (cmdFinalizeWith env args c now extra).missing_required ≠ [] :=
          (cmdFinalizeWith_missing_required_ne_nil_iff env args c now extra).mpr
            ⟨a, ha, hreq, Or.inr h⟩
        rw [not_isEmpty_of_ne_nil hne]
        rfl
      · have hne : (cmdFinalizeWith env args c now extra).corrupt_required ≠ [] :=
          (cmdFinalizeWith_corrupt_required_ne_nil_iff env args c now extra).mpr ⟨a, ha, hreq, h⟩
        rw [not_isEmpty_of_ne_nil hne]
        simp
    · intro hall hreqall hex
      rw [cmdFinalizeWith_run_status_eq, hnone]
      have hftc : ¬(cmdFinalizeWith env args c now extra).failedTaskCount > 0 := by
        intro hgt
        obtain ⟨t, ht, hst⟩ := (cmdFinalizeWith_failed_count_pos_iff env args c now extra).mp hgt
        exact hall t ht hst
      have hmr : (cmdFinalizeWith env args c now extra).missing_required = [] := by
        by_contra hne
        obtain ⟨a, ha, hreq, hst⟩ :=
          (cmdFinalizeWith_missing_required_ne_nil_iff env args c now extra).mp hne
        rcases hst with h | h
        · exact (hreqall a ha hreq).1 h
        · exact (hreqall a ha hreq).2.1 h
      have hcr : (cmdFinalizeWith env args c now extra).corrupt_required = [] := by
        by_contra hne
        obtain ⟨a, ha, hreq, hst⟩ :=
          (cmdFinalizeWith_corrupt_required_ne_nil_iff env args c now extra).mp hne
        exact (hreqall a ha hreq).2.2 hst
      have hur : (cmdFinalizeWith env args c now extra).unknown_required ≠ [] :=
        (cmdFinalizeWith_unknown_required_ne_nil_iff env args c now extra).mpr hex
      apply runStatusOf_none_unverified hftc
      · rw [isEmpty_of_eq_nil hmr, isEmpty_of_eq_nil hcr]
        rfl
      · rw [not_isEmpty_of_ne_nil hur]
        rfl
    · intro hall hreqall
      rw [cmdFinalizeWith_run_status_eq, hnone]
      have hftc : ¬(cmdFinalizeWith env args c now extra).failedTaskCount > 0 := by
        intro hgt
        obtain ⟨t, ht, hst⟩ := (cmdFinalizeWith_failed_count_pos_iff env args c now extra).mp hgt
        exact hall t ht hst
      have hmr : (cmdFinalizeWith env args c now extra).missing_required = [] := by
        by_contra hne
        obtain ⟨a, ha, hreq, hst⟩ :=
          (cmdFinalizeWith_missing_required_ne_nil_iff env args c now extra).mp hne
        rcases hst with h | h
        · exact (hreqall a ha hreq).1 h
        · exact (hreqall a ha hreq).2.1 h
      have hcr : (cmdFinalizeWith env args c now extra).corrupt_required = [] := by
        by_contra hne
        obtain ⟨a, ha, hreq, hst⟩ :=
          (cmdFinalizeWith_corrupt_required_ne_nil_iff env args c now extra).mp hne
        exact (hreqall a ha hreq).2.2.1 hst
      have hur : (cmdFinalizeWith env args c now extra).unknown_required = [] := by
        by_contra hne
        obtain ⟨a, ha, hreq, hst⟩ :=
          (cmdFinalizeWith_unknown_required_ne_nil_iff env args c now extra).mp hne
        exact (hreqall a ha hreq).2.2.2 hst
      apply runStatusOf_none_finished hftc
      · rw [isEmpty_of_eq_nil hmr, isEmpty_of_eq_nil hcr]
        rfl
      · rw [isEmpty_of_eq_nil hur]
        rfl
  · intro s hsome h1 h2
    rw [cmdFinalizeWith_run_status_eq, hsome]
    exact runStatusOf_override h1 h2

/-- Witness for `c4_run_rollup`: a concrete caller override is stored. -/
theorem c4_run_rollup_witness :
    trimStr "DONE" = "DONE" ∧
    (cmdFinalizeWith envNone { status := some "DONE" } preflightDoc "n" []).contract.run_status =
      "DONE" :=
  ⟨by decide,
    (c4_run_rollup envNone { status := some "DONE" } preflightDoc "n" _ rfl).2 "DONE" rfl
      (by decide) (by decide)⟩

/-- C4, as stated, is false on a duplicate-id document: a required asset
that ends `failed` (shadowed in the index by an `ok` duplicate, so its task
still succeeds) drives the run to `FINISHED_WITH_ISSUES`, while the order
exactly as claimed — no failed task, no required `missing`/`corrupt`, no
required `unknown` — would yield `FINISHED`. -/
theorem c4_counterexample :
    ((cmdFinalize envTrue {} docDupIds "n").toOption.map
        (fun out => out.contract.run_status) = some "FINISHED_WITH_ISSUES") ∧
    ((cmdFinalize envTrue {} docDupIds "n").toOption.map
        (fun out => (out.contract.tasks.filter (fun t => t.status == "failed")).isEmpty) =
      some true) ∧
    ((cmdFinalize envTrue {} docDupIds "n").toOption.map
        (fun out => (out.contract.assets.filter (fun a => a.required &&
            (a.status == "missing" || a.status == "corrupt" || a.status == "unknown"))).isEmpty) =
      some true) ∧
    ("FINISHED_WITH_ISSUES" : String) ≠ "FINISHED" := by
  decide

/-! ## C9 — completion signals -/

theorem map_ne_nil_iff {α β : Type} (f : α → β) (l : List α) : l.map f ≠ [] ↔ l ≠ [] := by
  cases l <;> simp

theorem isEmpty_eq_false_iff {α : Type} (l : List α) : l.isEmpty = false ↔ l ≠ [] := by
  cases l <;> simp

theorem not_isEmpty_sortedDedup_iff (l : List String) :
    (!(sortedDedup l).isEmpty) = true ↔ l ≠ [] := by
  rw [Bool.not_eq_true', isEmpty_eq_false_iff, Ne, sortedDedup_eq_nil_iff]

theorem preflight_missing_coherent (env : Env) (c : Contract) (strict : Bool) :
    ∀ a ∈ (cmdPreflight env c strict).contract.assets, a.role = "input" →
      (a.status = "missing" ↔ a.exists_ = some false) := by
  intro a ha hrole
  have ha' : a ∈ c.assets.map
      (fun b => if b.role == "input" then preflightAsset env b else b) := ha
  rcases List.mem_map.mp ha' with ⟨b, hb, heq⟩
  by_cases hbr : (b.role == "input") = true
  · rw [if_pos hbr] at heq
    subst heq
    unfold preflightAsset
    cases h : (assetExists env b).1 with
    | none => simp [h]
    | some bb => cases bb <;> simp [h]
  · rw [if_neg hbr] at heq
    subst heq
    exact absurd (by simp [hrole]) hbr

theorem cmdPreflight_missing_required_ne_nil_iff (env : Env) (c : Contract) (strict : Bool) :
    (cmdPreflight env c strict).missing_required ≠ [] ↔
      ∃ a ∈ (cmdPreflight env c strict).contract.assets,
        a.role = "input" ∧ a.required = true ∧ a.status = "missing" := by
  have he : (cmdPreflight env c strict).missing_required =
      (((cmdPreflight env c strict).contract.assets.filter
          (fun a => a.role == "input")).filter
        (fun a => a.exists_ == some false && a.required)).map Asset.asset_id := rfl
  rw [he, map_ne_nil_iff, filter_ne_nil_iff]
  constructor
  · rintro ⟨a, ha, hcond⟩
    obtain ⟨hmem, hrole⟩ := List.mem_filter.mp ha
    have hrole' : a.role = "input" := by simpa using hrole
    have hcond' : a.exists_ = some false ∧ a.required = true := by simpa using hcond
    exact ⟨a, hmem, hrole', hcond'.2,
      (preflight_missing_coherent env c strict a hmem hrole').mpr hcond'.1⟩
  · rintro ⟨a, ha, hrole, hreq, hst⟩
    refine ⟨a, List.mem_filter.mpr ⟨ha, by simp [hrole]⟩, ?_⟩
    have hex := (preflight_missing_coherent env c strict a ha hrole).mp hst
    simp [hex, hreq]

/-- C9 (amended): a finalize run that returns at all (the
`--verification-json-file` step, when requested, must load a JSON object,
else the command raises) exits with the non-zero signal 2 exactly when
strict mode holds and either one of the three post-merge verification
entries is truthy or some task ends `failed`; when no override file is
supplied those entries are exactly the computed triage lists, so the exit
is 2 exactly when some required asset ends `missing`, `failed`, `corrupt`
or `unknown` or some task ends `failed` — but a caller-supplied override
can force or mask the asset-derived part of the signal.  Preflight in
strict mode exits 2 exactly when some required input asset is `missing` —
an `unknown` required input, a corrupt one, or a failed task never make
preflight non-zero.  All exits are 0 or 2. -/
theorem c9_exit_codes :
    (∀ (env : Env) (args : FinalizeArgs) (c : Contract) (now : String) (out : FinalizeOut)
        (extra : List (String × Json)),
        verificationExtra env args = Except.ok extra →
        cmdFinalize env args c now = Except.ok out →
        ((out.exit ≠ 0 ↔
            (args.strict = true ∧
              (verificationGet extra "missing_required_asset_ids" out.missing_required
                  = true ∨
               verificationGet extra "corrupt_required_asset_ids" out.corrupt_required
                  = true ∨
               verificationGet extra "unverified_required_asset_ids" out.unknown_required
                  = true ∨
               (∃ t ∈ out.contract.tasks, t.status = "failed")))) ∧
         (out.exit = 0 ∨ out.exit = 2))) ∧
    (∀ (env : Env) (args : FinalizeArgs) (c : Contract) (now : String) (out : FinalizeOut),
        strOf args.verification_json_file = "" →
        cmdFinalize env args c now = Except.ok out →
        (out.exit ≠ 0 ↔
          (args.strict = true ∧
            ((∃ a ∈ out.contract.assets, a.required = true ∧
                (a.status = "missing" ∨ a.status = "failed" ∨ a.status = "corrupt" ∨
                  a.status = "unknown")) ∨
              (∃ t ∈ out.contract.tasks, t.status = "failed"))))) ∧
    (∀ (env : Env) (c : Contract) (strict : Bool),
        ((cmdPreflight env c strict).exit ≠ 0 ↔
          (strict = true ∧ ∃ a ∈ (cmdPreflight env c strict).contract.assets,
            a.role = "input" ∧ a.required = true ∧ a.status = "missing")) ∧
        ((cmdPreflight env c strict).exit = 0 ∨ (cmdPreflight env c strict).exit = 2)) := by
  refine ⟨?_, ?_, ?_⟩
  · intro env args c now out extra hv hok
    rw [cmdFinalize_ok_of_extra c now hv] at hok
    injection hok with hok
    subst hok
    have he : (cmdFinalizeWith env args c now extra).exit =
        (if args.strict &&
            (verificationGet extra "missing_required_asset_ids"
                (cmdFinalizeWith env args c now extra).missing_required ||
             verificationGet extra "corrupt_required_asset_ids"
                (cmdFinalizeWith env args c now extra).corrupt_required ||
             verificationGet extra "unverified_required_asset_ids"
                (cmdFinalizeWith env args c now extra).unknown_required ||
             decide ((cmdFinalizeWith env args c now extra).failedTaskCount > 0))
         then 2 else 0) := rfl
    constructor
    · rw [he]
      by_cases hcnd : (args.strict &&
          (verificationGet extra "missing_required_asset_ids"
              (cmdFinalizeWith env args c now extra).missing_required ||
           verificationGet extra "corrupt_required_asset_ids"
              (cmdFinalizeWith env args c now extra).corrupt_required ||
           verificationGet extra "unverified_required_asset_ids"
              (cmdFinalizeWith env args c now extra).unknown_required ||
           decide ((cmdFinalizeWith env args c now extra).failedTaskCount > 0))) = true
      · rw [if_pos hcnd]
        simp only [ne_eq, OfNat.ofNat_ne_zero, not_false_eq_true, true_iff]
        rw [Bool.and_eq_true] at hcnd
        refine ⟨hcnd.1, ?_⟩
        have h2 := hcnd.2
        rw [Bool.or_eq_true, Bool.or_eq_true, Bool.or_eq_true, decide_eq_true_eq,
          cmdFinalizeWith_failed_count_pos_iff] at h2
        rcases h2 with ((h | h) | h) | h
        · exact Or.inl h
        · exact Or.inr (Or.inl h)
        · exact Or.inr (Or.inr (Or.inl h))
        · exact Or.inr (Or.inr (Or.inr h))
      · rw [if_neg hcnd]
        simp only [ne_eq, not_true_eq_false, false_iff, not_and]
        intro hstrict hrhs
        apply hcnd
        rw [Bool.and_eq_true]
        refine ⟨hstrict, ?_⟩
        rw [Bool.or_eq_true, Bool.or_eq_true, Bool.or_eq_true, decide_eq_true_eq,
          cmdFinalizeWith_failed_count_pos_iff]
        rcases hrhs with h | h | h | h
        · exact Or.inl (Or.inl (Or.inl h))
        · exact Or.inl (Or.inl (Or.inr h))
        · exact Or.inl (Or.inr h)
        · exact Or.inr h
    · rw [he]
      by_cases hcnd : (args.strict &&
          (verificationGet extra "missing_required_asset_ids"
              (cmdFinalizeWith env args c now extra).missing_required ||
           verificationGet extra "corrupt_required_asset_ids"
              (cmdFinalizeWith env args c now extra).corrupt_required ||
           verificationGet extra "unverified_required_asset_ids"
              (cmdFinalizeWith env args c now extra).unknown_required ||
           decide ((cmdFinalizeWith env args c now extra).failedTaskCount > 0))) = true
      · rw [if_pos hcnd]
        exact Or.inr rfl
      · rw [if_neg hcnd]
        exact Or.inl rfl
  · intro env args c now out hfile hok
    rw [cmdFinalize_ok_of_extra c now (verificationExtra_no_file hfile)] at hok
    injection hok with hok
    subst hok
    have he : (cmdFinalizeWith env args c now []).exit =
        (if args.strict &&
            (!(sortedDedup (cmdFinalizeWith env args c now []).missing_required).isEmpty ||
             !(sortedDedup (cmdFinalizeWith env args c now []).corrupt_required).isEmpty ||
             !(sortedDedup (cmdFinalizeWith env args c now []).unknown_required).isEmpty ||
             decide ((cmdFinalizeWith env args c now []).failedTaskCount > 0))
         then 2 else 0) := rfl
    have hinner :
        (!(sortedDedup (cmdFinalizeWith env args c now []).missing_required).isEmpty ||
         !(sortedDedup (cmdFinalizeWith env args c now []).corrupt_required).isEmpty ||
         !(sortedDedup (cmdFinalizeWith env args c now []).unknown_required).isEmpty ||
         decide ((cmdFinalizeWith env args c now []).failedTaskCount > 0)) = true ↔
          ((∃ a ∈ (cmdFinalizeWith env args c now []).contract.assets, a.required = true ∧
              (a.status = "missing" ∨ a.status = "failed" ∨ a.status = "corrupt" ∨
                a.status = "unknown")) ∨
            (∃ t ∈ (cmdFinalizeWith env args c now []).contract.tasks,
              t.status = "failed")) := by
      rw [Bool.or_eq_true, Bool.or_eq_true, Bool.or_eq_true,
        not_isEmpty_sortedDedup_iff, not_isEmpty_sortedDedup_iff,
        not_isEmpty_sortedDedup_iff, decide_eq_true_eq,
        cmdFinalizeWith_missing_required_ne_nil_iff,
        cmdFinalizeWith_corrupt_required_ne_nil_iff,
        cmdFinalizeWith_unknown_required_ne_nil_iff,
        cmdFinalizeWith_failed_count_pos_iff]
      constructor
      · rintro (((⟨a, ha, hr, h | h⟩ | ⟨a, ha, hr, h⟩) | ⟨a, ha, hr, h⟩) | hD)
        · exact Or.inl ⟨a, ha, hr, Or.inl h⟩
        · exact Or.inl ⟨a, ha, hr, Or.inr (Or.inl h)⟩
        · exact Or.inl ⟨a, ha, hr, Or.inr (Or.inr (Or.inl h))⟩
        · exact Or.inl ⟨a, ha, hr, Or.inr (Or.inr (Or.inr h))⟩
        · exact Or.inr hD
      · rintro (⟨a, ha, hr, h | h | h | h⟩ | hD)
        · exact Or.inl (Or.inl (Or.inl ⟨a, ha, hr, Or.inl h⟩))
        · exact Or.inl (Or.inl (Or.inl ⟨a, ha, hr, Or.inr h⟩))
        · exact Or.inl (Or.inl (Or.inr ⟨a, ha, hr, h⟩))
        · exact Or.inl (Or.inr ⟨a, ha, hr, h⟩)
        · exact Or.inr hD
    rw [he]
    by_cases hcnd : (args.strict &&
        (!(sortedDedup (cmdFinalizeWith env args c now []).missing_required).isEmpty ||
         !(sortedDedup (cmdFinalizeWith env args c now []).corrupt_required).isEmpty ||
         !(sortedDedup (cmdFinalizeWith env args c now []).unknown_required).isEmpty ||
         decide ((cmdFinalizeWith env args c now []).failedTaskCount > 0))) = true
    · rw [if_pos hcnd]
      rw [Bool.and_eq_true] at hcnd
      simp only [ne_eq, OfNat.ofNat_ne_zero, not_false_eq_true, true_iff]
      exact ⟨hcnd.1, hinner.mp hcnd.2⟩
    · rw [if_neg hcnd]
      simp only [ne_eq, not_true_eq_false, false_iff, not_and]
      intro hstrict hrhs
      exact hcnd (by rw [Bool.and_eq_true]; exact ⟨hstrict, hinner.mpr hrhs⟩)
  · intro env c strict
    have he : (cmdPreflight env c strict).exit =
        (if strict && !(cmdPreflight env c strict).missing_required.isEmpty
         then 2 else 0) := rfl
    have hinner : (!(cmdPreflight env c strict).missing_required.isEmpty) = true ↔
        ∃ a ∈ (cmdPreflight env c strict).contract.assets,
          a.role = "input" ∧ a.required = true ∧ a.status = "missing" := by
      rw [Bool.not_eq_true', isEmpty_eq_false_iff,
        cmdPreflight_missing_required_ne_nil_iff]
    constructor
    · rw [he]
      by_cases hc : (strict && !(cmdPreflight env c strict).missing_required.isEmpty) = true
      · rw [if_pos hc]
        rw [Bool.and_eq_true] at hc
        simp only [ne_eq, OfNat.ofNat_ne_zero, not_false_eq_true, true_iff]
        exact ⟨hc.1, hinner.mp hc.2⟩
      · rw [if_neg hc]
        simp only [ne_eq, not_true_eq_false, false_iff, not_and]
        intro hstrict hrhs
        exact hc (by rw [Bool.and_eq_true]; exact ⟨hstrict, hinner.mpr hrhs⟩)
    · rw [he]
      by_cases hc : (strict && !(cmdPreflight env c strict).missing_required.isEmpty) = true
      · rw [if_pos hc]
        exact Or.inr rfl
      · rw [if_neg hc]
        exact Or.inl rfl

/-- Witness for `c9_exit_codes`: strict preflight over one absent required
input returns the non-zero signal, and a concrete finalize run exits 0 or
2. -/
theorem c9_exit_codes_witness :
    ((cmdPreflight envNone preflightMissingDoc true).exit ≠ 0) ∧
    ((cmdFinalizeWith envNone { strict := true } preflightMissingDoc "n" []).exit = 0 ∨
     (cmdFinalizeWith envNone { strict := true } preflightMissingDoc "n" []).exit = 2) :=
  ⟨(c9_exit_codes.2.2 envNone preflightMissingDoc true).1.mpr
    ⟨rfl, { inputMissing with
        exists_ := some false, exists_reason := some "local_path", status := "missing" },
      by decide, by decide, by decide, by decide⟩,
   (c9_exit_codes.1 envNone { strict := true } preflightMissingDoc "n" _ [] rfl rfl).2⟩

/-- C9, as stated, is false twice over.  Preflight: a required input asset
that resolves `unknown` leaves strict preflight at exit 0.  Finalize: a
caller-supplied verification override that empties the three triage entries
masks a genuinely missing required asset, so strict finalize exits 0. -/
theorem c9_counterexample :
    ((cmdPreflight envNone preflightDoc true).exit = 0) ∧
    ((cmdPreflight envNone preflightDoc true).contract.assets.map Asset.status =
      ["unknown"]) ∧
    inputNoLoc.required = true ∧
    ((cmdFinalize envMask
        { strict := true, verification_json_file := some "extra.json" }
        preflightMissingDoc "n").toOption.map FinalizeOut.exit = some 0) ∧
    ((cmdFinalize envMask
        { strict := true, verification_json_file := some "extra.json" }
        preflightMissingDoc "n").toOption.map
        (fun out => (out.contract.assets.filter
          (fun a => a.required && a.status == "missing")).isEmpty) = some false) := by
  decide

end RunContract
